import Mathlib

/-!
Verification development for the deltasink repository: a shallow embedding of
the `avroarrow` crate (schema translation, builder construction, row appending,
`src/avroarrow/src/schema.rs` and `src/avroarrow/src/record.rs`) and of the
`sregistry` crate (the reference-resolving registry client,
`src/sregistry/src/avro.rs`).

Modelling conventions:
- Rust machine integers are modelled as `Int`/`Nat`; the only width-sensitive
  operation in the code is `BigInt::to_i128`, modelled with an explicit
  `2 ^ 127` range check, and the `as u8`/`as i8` casts of decimal precision
  and scale, modelled with explicit `% 256` arithmetic.
- `f32`/`f64` payloads are only ever moved from a decoded value into a column
  builder, never inspected; they are carried as opaque `Int` tokens.
- Rust panics (the `unexpected_type!` macro, `Vec` index panics, the explicit
  `panic!` in `convert_schema`) are modelled as distinguished error values,
  kept separate from the `Err(...)` values the code returns: `AppendError`
  and `ConvError` have one constructor per outcome.
- `Local::now().offset()` (the `tz_offset!` macro) reads the host clock; it is
  modelled as an explicit clock `Nat → String` together with a counter that
  advances by one at every `tz_offset!()` expansion.
- `Rc<Schema>` handles are modelled as a pair of an allocation identifier and
  the schema; `Rc::from` draws a fresh identifier from a counter in the
  registry state, and `clone()` returns the same identifier, so pointer
  equality of handles is identifier equality.
- HTTP traffic of `Client::get_subject` is modelled by an environment function
  plus a log of issued GETs, appended to exactly where the code performs the
  request.
-/

/-- `arrow::datatypes::TimeUnit`, restricted to the units the code produces. -/
inductive TimeUnit where
  | millisecond
  | microsecond
  | nanosecond
deriving DecidableEq, Repr

mutual
/-- `arrow::datatypes::DataType`, restricted to the variants `convert_to_datatype`
produces. -/
inductive DataType where
  | nullT
  | booleanT
  | int32
  | int64
  | float32
  | float64
  | utf8
  | binary
  | fixedSizeBinary (size : Int)
  | date32
  | time32ms
  | time64us
  | timestamp (unit : TimeUnit) (tz : Option String)
  | decimal128 (precision : Nat) (scale : Int)
  | listT (item : AField)
  | mapT (entries : AField) (keysSorted : Bool)
  | structT (fields : List AField)
deriving Repr

/-- `arrow::datatypes::Field`: name, data type, nullability. -/
inductive AField where
  | mk (name : String) (dtype : DataType) (nullable : Bool)
deriving Repr
end

def AField.name : AField → String
  | .mk n _ _ => n

def AField.dtype : AField → DataType
  | .mk _ d _ => d

def AField.nullable : AField → Bool
  | .mk _ _ b => b

/-- `apache_avro::Schema` restricted to the variants the code matches on.
`record` fields keep only the name and schema of each `RecordField`; the
remaining metadata (doc, aliases, defaults, position, ...) is never read by
the translated functions. `duration` stands for the remaining variants that
all fall into the `_` arms of the source. -/
inductive AvroSchema where
  | null
  | boolean
  | int
  | long
  | float
  | double
  | bytes
  | string
  | uuid
  | timeMillis
  | timeMicros
  | timestampMillis
  | timestampMicros
  | timestampNanos
  | localTimestampMillis
  | localTimestampMicros
  | localTimestampNanos
  | date
  | enumS (symbols : List String)
  | decimal (precision : Nat) (scale : Nat)
  | fixed (size : Nat)
  | bigDecimal
  | array (items : AvroSchema)
  | map (types : AvroSchema)
  | record (name : String) (fields : List (String × AvroSchema))
  | union (variants : List AvroSchema)
  | ref (name : String)
  | duration
deriving Repr

/-- `apache_avro::types::Value` restricted to the variants the code matches on.
The `decimal` payload is the `BigInt` behind `apache_avro::Decimal`. -/
inductive AvroValue where
  | null
  | boolean (b : Bool)
  | int (v : Int)
  | long (v : Int)
  | float (bits : Int)
  | double (bits : Int)
  | decimal (v : Int)
  | date (v : Int)
  | timeMillis (v : Int)
  | timeMicros (v : Int)
  | timestampMillis (v : Int)
  | timestampMicros (v : Int)
  | timestampNanos (v : Int)
  | localTimestampMillis (v : Int)
  | localTimestampMicros (v : Int)
  | localTimestampNanos (v : Int)
  | string (s : String)
  | enumV (ordinal : Nat) (symbol : String)
  | bytes (bs : List Nat)
  | uuid (bs : List Nat)
  | fixed (len : Nat) (bs : List Nat)
  | array (items : List AvroValue)
  | map (pairs : List (String × AvroValue))
  | record (fields : List (String × AvroValue))
  | union (idx : Nat) (inner : AvroValue)
deriving Repr

/-- The tree of `arrow::array::builder` objects produced by `create_builder`:
one constructor per concrete Arrow builder type the code instantiates. A leaf
builder is its list of appended cells (`none` = appended null); `listB`,
`mapB` and `structB` carry the validity bits appended by `append`/`append_null`
plus their child builders. `structB` also carries the `AField` metadata passed
to `StructBuilder::new`. -/
inductive ArrayBuilder where
  | nullB (len : Nat)
  | booleanB (vals : List (Option Bool))
  | int32B (vals : List (Option Int))
  | int64B (vals : List (Option Int))
  | float32B (vals : List (Option Int))
  | float64B (vals : List (Option Int))
  | decimal128B (precision : Nat) (scale : Int) (vals : List (Option Int))
  | date32B (vals : List (Option Int))
  | time32msB (vals : List (Option Int))
  | time64usB (vals : List (Option Int))
  | timestampMsB (tz : Option String) (vals : List (Option Int))
  | timestampUsB (tz : Option String) (vals : List (Option Int))
  | timestampNsB (tz : Option String) (vals : List (Option Int))
  | stringB (vals : List (Option String))
  | binaryB (vals : List (Option (List Nat)))
  | fixedSizeBinaryB (size : Nat) (vals : List (Option (List Nat)))
  | listB (validity : List Bool) (values : ArrayBuilder)
  | mapB (validity : List Bool) (keys : List (Option String)) (values : ArrayBuilder)
  | structB (fields : List AField) (validity : List Bool) (children : List ArrayBuilder)
deriving Repr

/-- `ArrayBuilder::len()` of the modelled builder. -/
def builderLen : ArrayBuilder → Nat
  | .nullB n => n
  | .booleanB vals => vals.length
  | .int32B vals => vals.length
  | .int64B vals => vals.length
  | .float32B vals => vals.length
  | .float64B vals => vals.length
  | .decimal128B _ _ vals => vals.length
  | .date32B vals => vals.length
  | .time32msB vals => vals.length
  | .time64usB vals => vals.length
  | .timestampMsB _ vals => vals.length
  | .timestampUsB _ vals => vals.length
  | .timestampNsB _ vals => vals.length
  | .stringB vals => vals.length
  | .binaryB vals => vals.length
  | .fixedSizeBinaryB _ vals => vals.length
  | .listB validity _ => validity.length
  | .mapB validity _ _ => validity.length
  | .structB _ validity _ => validity.length

/-- Errors of `convert_schema`, `convert_to_datatype` and `create_builder`
(`Box<dyn Error>` values and the one panic), one constructor per distinct
outcome in the source. -/
inductive ConvError where
  | panicNotRecord
  | unsupportedUnion
  | unsupported
deriving DecidableEq, Repr

/-- `u8` cast of a `usize` (`schema.precision as u8`). -/
def u8cast (n : Nat) : Nat := n % 256

/-- `i8` cast of a `usize` (`schema.scale as i8`). -/
def i8cast (n : Nat) : Int :=
  let m := n % 256
  if m < 128 then (m : Int) else (m : Int) - 256

/-- `is_nullable` from `src/avroarrow/src/schema.rs`: a schema is nullable iff
it is a union with a `Null` variant in any position. -/
def is_nullable (src : AvroSchema) : Bool :=
  match src with
  | .union variants =>
      variants.any fun s => match s with | .null => true | _ => false
  | _ => false

/-- `is_optional` from `src/avroarrow/src/schema.rs`: exactly two variants and
the first one is `Null`. -/
def is_optional (variants : List AvroSchema) : Bool :=
  variants.length == 2 &&
    (match variants.head? with | some .null => true | _ => false)

mutual
/-- `convert_to_datatype` from `src/avroarrow/src/schema.rs`. The `clock`
argument models `Local::now().offset()`: each expansion of `tz_offset!()`
reads `clock t` and advances the counter `t`. -/
def convert_to_datatype (clock : Nat → String) :
    AvroSchema → Nat → Except ConvError (DataType × Nat)
  | .null, t => .ok (.nullT, t)
  | .boolean, t => .ok (.booleanT, t)
  | .int, t => .ok (.int32, t)
  | .long, t => .ok (.int64, t)
  | .float, t => .ok (.float32, t)
  | .double, t => .ok (.float64, t)
  | .bytes, t => .ok (.binary, t)
  | .string, t => .ok (.utf8, t)
  | .uuid, t => .ok (.fixedSizeBinary 16, t)
  | .timeMillis, t => .ok (.time32ms, t)
  | .timeMicros, t => .ok (.time64us, t)
  | .timestampMillis, t => .ok (.timestamp .millisecond none, t)
  | .timestampMicros, t => .ok (.timestamp .microsecond none, t)
  | .timestampNanos, t => .ok (.timestamp .nanosecond none, t)
  | .localTimestampMillis, t =>
      .ok (.timestamp .millisecond (some (clock t)), t + 1)
  | .localTimestampMicros, t =>
      .ok (.timestamp .microsecond (some (clock t)), t + 1)
  | .localTimestampNanos, t =>
      .ok (.timestamp .nanosecond (some (clock t)), t + 1)
  | .date, t => .ok (.date32, t)
  | .enumS _, t => .ok (.utf8, t)
  | .decimal p s, t => .ok (.decimal128 (u8cast p) (i8cast s), t)
  | .fixed size, t => .ok (.fixedSizeBinary (size : Int), t)
  | .bigDecimal, t => .ok (.binary, t)
  | .array items, t => do
      let (dt, t') ← convert_to_datatype clock items t
      .ok (.listT (.mk "item" dt (is_nullable items)), t')
  | .map types, t => do
      let (dt, t') ← convert_to_datatype clock types t
      let entries : AField := .mk "entries"
        (.structT [.mk "keys" .utf8 false, .mk "values" dt (is_nullable types)])
        false
      .ok (.mapT entries false, t')
  | .record _ fields, t => do
      let (fs, t') ← convert_record_fields clock fields t
      .ok (.structT fs, t')
  | .union variants, t =>
      -- `if is_optional(schema) \x7b convert_to_datatype(&schema.variants()[1]) \x7d`:
      -- when `is_optional` holds the union has exactly two variants, so the
      -- `variants()[1]` access is written as a structural match on the list.
      if is_optional variants then
        match variants with
        | _ :: v :: _ => convert_to_datatype clock v t
        | _ => .error .unsupported
      else
        .error .unsupportedUnion
  | .ref _, _t => .error .unsupported
  | .duration, _t => .error .unsupported

/-- The field-mapping loop shared by the `Record` arm of `convert_to_datatype`
and by `convert_schema`: `AField::new(name, convert_to_datatype(schema)?,
is_nullable(schema))` for each record field in order. -/
def convert_record_fields (clock : Nat → String) :
    List (String × AvroSchema) → Nat → Except ConvError (List AField × Nat)
  | [], t => .ok ([], t)
  | (name, schema) :: rest, t => do
      let (dt, t') ← convert_to_datatype clock schema t
      let (fs, t'') ← convert_record_fields clock rest t'
      .ok (.mk name dt (is_nullable schema) :: fs, t'')
end

/-- `convert_schema` from `src/avroarrow/src/schema.rs`: maps the fields of a
top-level `Record`; any other top-level variant hits
`panic!("unsupported avro schema root type: expected a record")`, modelled by
the distinguished `ConvError.panicNotRecord`. -/
def convert_schema (clock : Nat → String) (src : AvroSchema) (t : Nat) :
    Except ConvError (List AField × Nat) :=
  match src with
  | .record _ fields => convert_record_fields clock fields t
  | _ => .error .panicNotRecord

mutual
/-- `create_builder` from `src/avroarrow/src/schema.rs`. Capacity hints only
pre-allocate storage and never affect observable builder contents; `cap` is
kept as a parameter for fidelity but the modelled builders start empty. The
clock counter `t` advances at each `tz_offset!()` expansion inside
`local_timestamp_*_builder` (via `arrow_timestamp_type`). -/
def create_builder (clock : Nat → String) (cap : Nat) :
    AvroSchema → Nat → Except ConvError (ArrayBuilder × Nat)
  | .null, t => .ok (.nullB 0, t)
  | .boolean, t => .ok (.booleanB [], t)
  | .int, t => .ok (.int32B [], t)
  | .long, t => .ok (.int64B [], t)
  | .float, t => .ok (.float32B [], t)
  | .double, t => .ok (.float64B [], t)
  | .decimal p s, t =>
      -- `decimal_builder`: `with_data_type(Decimal128(p as u8, s as i8))`
      .ok (.decimal128B (u8cast p) (i8cast s) [], t)
  | .date, t => .ok (.date32B [], t)
  | .timeMillis, t => .ok (.time32msB [], t)
  | .timeMicros, t => .ok (.time64usB [], t)
  | .timestampMillis, t => .ok (.timestampMsB none [], t)
  | .timestampMicros, t => .ok (.timestampUsB none [], t)
  | .timestampNanos, t => .ok (.timestampNsB none [], t)
  | .localTimestampMillis, t =>
      -- `local_timestamp_ms_builder`: `with_data_type(Timestamp(ms, Some(tz_offset!())))`
      .ok (.timestampMsB (some (clock t)) [], t + 1)
  | .localTimestampMicros, t => .ok (.timestampUsB (some (clock t)) [], t + 1)
  | .localTimestampNanos, t => .ok (.timestampNsB (some (clock t)) [], t + 1)
  | .bytes, t => .ok (.binaryB [], t)
  | .fixed size, t => .ok (.fixedSizeBinaryB size [], t)
  | .string, t => .ok (.stringB [], t)
  | .enumS _, t => .ok (.stringB [], t)
  | .uuid, t => .ok (.fixedSizeBinaryB 16 [], t)
  | .array items, t => do
      -- `array_builder`: `ListBuilder::with_capacity(create_builder(items, cap)?, cap)`
      let (vb, t') ← create_builder clock cap items t
      .ok (.listB [] vb, t')
  | .map types, t => do
      -- `map_builder`: Utf8 key builder plus `create_builder(types, cap)?`
      let (vb, t') ← create_builder clock cap types t
      .ok (.mapB [] [] vb, t')
  | .record _ fields, t => do
      let (fs, bs, t') ← struct_builder_fields clock cap fields t
      .ok (.structB fs [] bs, t')
  | .union variants, t =>
      -- `if is_optional(schema) \x7b create_builder(&schema.variants()[1], cap) \x7d`
      if is_optional variants then
        match variants with
        | _ :: v :: _ => create_builder clock cap v t
        | _ => .error .unsupported
      else
        .error .unsupportedUnion
  | .bigDecimal, _t => .error .unsupported
  | .ref _, _t => .error .unsupported
  | .duration, _t => .error .unsupported

/-- The loop of `struct_builder`: for each record field push
`AField::new(name, convert_to_datatype(schema)?, is_nullable(schema))` and
`create_builder(schema, cap)?`. -/
def struct_builder_fields (clock : Nat → String) (cap : Nat) :
    List (String × AvroSchema) → Nat →
    Except ConvError (List AField × List ArrayBuilder × Nat)
  | [], t => .ok ([], [], t)
  | (name, schema) :: rest, t => do
      let (dt, t₁) ← convert_to_datatype clock schema t
      let (b, t₂) ← create_builder clock cap schema t₁
      let (fs, bs, t₃) ← struct_builder_fields clock cap rest t₂
      .ok (.mk name dt (is_nullable schema) :: fs, b :: bs, t₃)
end

/-- Range test for `BigInt::to_i128()` returning `Some`. -/
def fits_i128 (n : Int) : Bool := -(2 ^ 127) ≤ n && n < 2 ^ 127

/-- `from_decimal128` from `src/avroarrow/src/record.rs`: the big-integer
payload when it fits into `i128`, and the silent `0` fallback otherwise. -/
def from_decimal128 (n : Int) : Int :=
  if fits_i128 n then n else 0

/-- Outcomes of `append_record` other than success, one constructor per
distinct way the source leaves the happy path:
`unexpectedType` is the `unexpected_type!` panic (carrying the expected-type
string passed to the macro), `indexOutOfBounds` a `Vec`/slice index panic,
`unsupportedSchema` the returned `Err(format!("unsupported schema ..."))`,
`arrowError` an error returned by the underlying Arrow builder and propagated
with `?`, and `castMismatch` the undefined behaviour of `cast_unchecked`
hitting a builder of the wrong concrete type. -/
inductive AppendError where
  | unexpectedType (expected : String)
  | indexOutOfBounds
  | unsupportedSchema
  | arrowError
  | castMismatch
deriving DecidableEq, Repr

mutual
/-- `append_record` from `src/avroarrow/src/record.rs`: recurse over the
schema, the decoded value and the builder tree, appending one row. The arms
appear in source order; the `convert!`/`convert_ex!` macro arms first match
the value (`Null` → `append_null`, the expected variant → `append_value`,
anything else → `unexpected_type!` panic) after casting the builder. In the
`Union` arm the source computes `&inner.variants()[1]` before matching the
value, so a union with fewer than two variants is an index panic for every
value; the list pattern `_ :: t :: _` is that `variants()[1]` access. -/
def append_record (b : ArrayBuilder) (schema : AvroSchema) (record : AvroValue) :
    Except AppendError ArrayBuilder :=
  match schema with
  | .boolean =>
      match b with
      | .booleanB vals =>
          match record with
          | .null => .ok (.booleanB (vals ++ [none]))
          | .boolean v => .ok (.booleanB (vals ++ [some v]))
          | _ => .error (.unexpectedType "Boolean")
      | _ => .error .castMismatch
  | .int =>
      match b with
      | .int32B vals =>
          match record with
          | .null => .ok (.int32B (vals ++ [none]))
          | .int v => .ok (.int32B (vals ++ [some v]))
          | _ => .error (.unexpectedType "Int")
      | _ => .error .castMismatch
  | .long =>
      match b with
      | .int64B vals =>
          match record with
          | .null => .ok (.int64B (vals ++ [none]))
          | .long v => .ok (.int64B (vals ++ [some v]))
          | _ => .error (.unexpectedType "Long")
      | _ => .error .castMismatch
  | .float =>
      match b with
      | .float32B vals =>
          match record with
          | .null => .ok (.float32B (vals ++ [none]))
          | .float v => .ok (.float32B (vals ++ [some v]))
          | _ => .error (.unexpectedType "Float")
      | _ => .error .castMismatch
  | .double =>
      match b with
      | .float64B vals =>
          match record with
          | .null => .ok (.float64B (vals ++ [none]))
          | .double v => .ok (.float64B (vals ++ [some v]))
          | _ => .error (.unexpectedType "Double")
      | _ => .error .castMismatch
  | .decimal _ _ =>
      match b with
      | .decimal128B p s vals =>
          match record with
          | .null => .ok (.decimal128B p s (vals ++ [none]))
          | .decimal v => .ok (.decimal128B p s (vals ++ [some (from_decimal128 v)]))
          | _ => .error (.unexpectedType "Decimal")
      | _ => .error .castMismatch
  | .date =>
      match b with
      | .date32B vals =>
          match record with
          | .null => .ok (.date32B (vals ++ [none]))
          | .date v => .ok (.date32B (vals ++ [some v]))
          | _ => .error (.unexpectedType "Date")
      | _ => .error .castMismatch
  | .timeMillis =>
      match b with
      | .time32msB vals =>
          match record with
          | .null => .ok (.time32msB (vals ++ [none]))
          | .timeMillis v => .ok (.time32msB (vals ++ [some v]))
          | _ => .error (.unexpectedType "TimeMillis")
      | _ => .error .castMismatch
  | .timeMicros =>
      match b with
      | .time64usB vals =>
          match record with
          | .null => .ok (.time64usB (vals ++ [none]))
          | .timeMicros v => .ok (.time64usB (vals ++ [some v]))
          | _ => .error (.unexpectedType "TimeMicros")
      | _ => .error .castMismatch
  | .timestampMillis =>
      match b with
      | .timestampMsB tz vals =>
          match record with
          | .null => .ok (.timestampMsB tz (vals ++ [none]))
          | .timestampMillis v => .ok (.timestampMsB tz (vals ++ [some v]))
          | _ => .error (.unexpectedType "TimestampMillis")
      | _ => .error .castMismatch
  | .timestampMicros =>
      match b with
      | .timestampUsB tz vals =>
          match record with
          | .null => .ok (.timestampUsB tz (vals ++ [none]))
          | .timestampMicros v => .ok (.timestampUsB tz (vals ++ [some v]))
          | _ => .error (.unexpectedType "TimestampMicros")
      | _ => .error .castMismatch
  | .timestampNanos =>
      match b with
      | .timestampNsB tz vals =>
          match record with
          | .null => .ok (.timestampNsB tz (vals ++ [none]))
          | .timestampNanos v => .ok (.timestampNsB tz (vals ++ [some v]))
          | _ => .error (.unexpectedType "TimestampNanos")
      | _ => .error .castMismatch
  | .localTimestampMillis =>
      match b with
      | .timestampMsB tz vals =>
          match record with
          | .null => .ok (.timestampMsB tz (vals ++ [none]))
          | .localTimestampMillis v => .ok (.timestampMsB tz (vals ++ [some v]))
          | _ => .error (.unexpectedType "LocalTimestampMillis")
      | _ => .error .castMismatch
  | .localTimestampMicros =>
      match b with
      | .timestampUsB tz vals =>
          match record with
          | .null => .ok (.timestampUsB tz (vals ++ [none]))
          | .localTimestampMicros v => .ok (.timestampUsB tz (vals ++ [some v]))
          | _ => .error (.unexpectedType "LocalTimestampMicros")
      | _ => .error .castMismatch
  | .localTimestampNanos =>
      match b with
      | .timestampNsB tz vals =>
          match record with
          | .null => .ok (.timestampNsB tz (vals ++ [none]))
          | .localTimestampNanos v => .ok (.timestampNsB tz (vals ++ [some v]))
          | _ => .error (.unexpectedType "LocalTimestampNanos")
      | _ => .error .castMismatch
  | .string =>
      match b with
      | .stringB vals =>
          match record with
          | .null => .ok (.stringB (vals ++ [none]))
          | .string v => .ok (.stringB (vals ++ [some v]))
          | _ => .error (.unexpectedType "String")
      | _ => .error .castMismatch
  | .enumS _ =>
      match b with
      | .stringB vals =>
          match record with
          | .null => .ok (.stringB (vals ++ [none]))
          | .enumV _ v => .ok (.stringB (vals ++ [some v]))
          | _ => .error (.unexpectedType "Enum")
      | _ => .error .castMismatch
  | .bytes =>
      match b with
      | .binaryB vals =>
          match record with
          | .null => .ok (.binaryB (vals ++ [none]))
          | .bytes v => .ok (.binaryB (vals ++ [some v]))
          | _ => .error (.unexpectedType "Bytes")
      | _ => .error .castMismatch
  | .uuid =>
      match b with
      | .fixedSizeBinaryB size vals =>
          match record with
          | .null => .ok (.fixedSizeBinaryB size (vals ++ [none]))
          | .uuid v =>
              -- `typed.append_value(from_uuid(v))?`: the Arrow builder
              -- errors when the byte length differs from its size
              if v.length == size then
                .ok (.fixedSizeBinaryB size (vals ++ [some v]))
              else
                .error .arrowError
          | _ => .error (.unexpectedType "Uuid")
      | _ => .error .castMismatch
  | .fixed _ =>
      match b with
      | .fixedSizeBinaryB size vals =>
          match record with
          | .null => .ok (.fixedSizeBinaryB size (vals ++ [none]))
          | .fixed _ v =>
              if v.length == size then
                .ok (.fixedSizeBinaryB size (vals ++ [some v]))
              else
                .error .arrowError
          | _ => .error (.unexpectedType "Fixed")
      | _ => .error .castMismatch
  | .array inner =>
      match b with
      | .listB validity values =>
          match record with
          | .null => .ok (.listB (validity ++ [false]) values)
          | .array items => do
              let values' ← append_array_items values inner items
              .ok (.listB (validity ++ [true]) values')
          | _ => .error (.unexpectedType "Array")
      | _ => .error .castMismatch
  | .map inner =>
      match b with
      | .mapB validity keys values =>
          match record with
          | .null =>
              -- `typed.append(false)?`: `MapBuilder::append` errors when the
              -- key and value builders have unequal lengths
              if keys.length == builderLen values then
                .ok (.mapB (validity ++ [false]) keys values)
              else
                .error .arrowError
          | .map pairs => do
              let (keys', values') ← append_map_pairs keys values inner pairs
              if keys'.length == builderLen values' then
                .ok (.mapB (validity ++ [true]) keys' values')
              else
                .error .arrowError
          | _ => .error (.unexpectedType "Map")
      | _ => .error .castMismatch
  | .record _ sfields =>
      match b with
      | .structB fmeta validity children =>
          match record with
          | .null => .ok (.structB fmeta (validity ++ [false]) children)
          | .record vfields => do
              let children' ← append_record_fields children sfields vfields 0
              .ok (.structB fmeta (validity ++ [true]) children')
          | _ => .error (.unexpectedType "Record")
      | _ => .error .castMismatch
  | .union variants =>
      match variants with
      | _ :: type_schema :: _ =>
          match record with
          | .union _ value => append_record b type_schema value
          | _ => .error (.unexpectedType "Union")
      | _ => .error .indexOutOfBounds
  | .null => .error .unsupportedSchema
  | .bigDecimal => .error .unsupportedSchema
  | .ref _ => .error .unsupportedSchema
  | .duration => .error .unsupportedSchema

/-- The loop of the `Record` arm: `for (i, (_, f_value)) in fields.iter()
.enumerate()`, pairing value fields with schema fields and child builders by
position. An index beyond `inner.fields` or beyond `field_builders` is a
panic (`indexOutOfBounds`); value field names are ignored. -/
def append_record_fields (children : List ArrayBuilder)
    (sfields : List (String × AvroSchema)) (vfields : List (String × AvroValue))
    (i : Nat) : Except AppendError (List ArrayBuilder) :=
  match vfields with
  | [] => .ok children
  | (_, f_value) :: rest =>
      match sfields[i]? with
      | none => .error .indexOutOfBounds
      | some (_, f_schema) =>
          match children[i]? with
          | none => .error .indexOutOfBounds
          | some cb => do
              let cb' ← append_record cb f_schema f_value
              append_record_fields (children.set i cb') sfields rest (i + 1)

/-- The loop of the `Array` arm: append every item into the list's values
builder. -/
def append_array_items (values : ArrayBuilder) (inner : AvroSchema) :
    List AvroValue → Except AppendError ArrayBuilder
  | [] => .ok values
  | item :: rest => do
      let values' ← append_record values inner item
      append_array_items values' inner rest

/-- The loop of the `Map` arm: append every key to the key builder and every
value into the values builder. -/
def append_map_pairs (keys : List (Option String)) (values : ArrayBuilder)
    (inner : AvroSchema) :
    List (String × AvroValue) → Except AppendError (List (Option String) × ArrayBuilder)
  | [] => .ok (keys, values)
  | (k, v) :: rest => do
      let values' ← append_record values inner v
      append_map_pairs (keys ++ [some k]) values' inner rest
end

/-- `sregistry::Reference`: an entry of a subject's `references` list. -/
structure Reference where
  name : String
  subject : String
  version : Int
deriving DecidableEq, Repr

/-- `sregistry::Subject`: the decoded body of
`GET /subjects/{subject}-value/versions/{version}`. -/
structure Subject where
  id : Int
  schema : String
  schemaType : String
  references : Option (List Reference)
deriving Repr

/-- `sregistry::RegistryError`, plus two modelling constructors:
`outOfFuel` stands for a run longer than the fuel bound handed to the model
(the source recursion is unbounded), and `panicIndex` for the
`self.cache[&key]` / `schemas[i]` index panics in `get`. The `unreachable!()`
arm of `resolve` is `panicUnreachable`. -/
inductive RegistryError where
  | expectedRecord
  | clientError (msg : String)
  | resolutionFailed (msg : String)
  | deserializationFailed (msg : String)
  | outOfFuel
  | panicIndex
  | panicUnreachable
deriving DecidableEq, Repr

/-- The environment of `AvroRegistry`: `Client::get_subject` (one HTTP GET)
and `Schema::parse_list` (the external avro parser, which batch-parses raw
texts; cross-references between schemas in the batch surface as `ref` nodes
in its output). Both are out-of-scope collaborators, so they are parameters
of the model. -/
structure RegEnv where
  get_subject : String → Int → Except String Subject
  parse_list : List String → Except String (List AvroSchema)

/-- Association-list stand-in for `HashMap` under its `get`/`insert`
interface: `insertA` prepends, `lookupA` takes the first hit, so an insert
replaces the visible binding. -/
def lookupA {α : Type} (m : List ((String × Int) × α)) (k : String × Int) : Option α :=
  match m with
  | [] => none
  | (k', v) :: rest => if k' = k then some v else lookupA rest k

def insertA {α : Type} (m : List ((String × Int) × α)) (k : String × Int) (v : α) :
    List ((String × Int) × α) :=
  (k, v) :: m

/-- The state threaded through `resolve`: the registry's `cache_raw`, the
`schemas` result vector, the `seen` status map (0 = in progress, 1 = done)
and the log of HTTP GETs issued via `client.get_subject` (model
instrumentation for the at-most-once property). -/
structure ResolveState where
  cacheRaw : List ((String × Int) × String)
  schemas : List ((String × Int) × String)
  seen : List ((String × Int) × Nat)
  log : List (String × Int)
deriving Repr

/-- `dep.subject.strip_suffix("-value")` with fallback to the raw subject,
written over the character-list model of `String` (rather than through
`String.endsWith`) so that it evaluates inside the kernel. -/
def strip_value (s : String) : String :=
  let cs := s.data
  let suf := ['-', 'v', 'a', 'l', 'u', 'e']
  if suf.length ≤ cs.length && cs.drop (cs.length - suf.length) == suf then
    ⟨cs.take (cs.length - suf.length)⟩
  else s

mutual
/-- `AvroRegistry::resolve` from `src/sregistry/src/avro.rs`. The recursion
of the source is unbounded in the environment, so the model consumes one unit
of `fuel` per nested `resolve`/reference-loop step; `outOfFuel` never occurs
for sufficient fuel on terminating runs. -/
def resolve (env : RegEnv) (fuel : Nat) (subject : String) (version : Int)
    (rs : ResolveState) : Except RegistryError ResolveState :=
  match fuel with
  | 0 => .error .outOfFuel
  | fuel + 1 =>
      let key := (subject, version)
      match lookupA rs.seen key with
      | some 0 =>
          .error (.resolutionFailed ("cycle detected at " ++ subject ++ ":" ++ toString version))
      | some 1 => .ok rs
      | some _ => .error .panicUnreachable
      | none =>
          let rs := { rs with seen := insertA rs.seen key 0 }
          match lookupA rs.cacheRaw key with
          | some value =>
              .ok { rs with
                      schemas := rs.schemas ++ [(key, value)],
                      seen := insertA rs.seen key 1 }
          | none =>
              match env.get_subject subject version with
              | .error e => .error (.clientError e)
              | .ok response => do
                  let rs := { rs with
                                cacheRaw := insertA rs.cacheRaw key response.schema,
                                log := rs.log ++ [key],
                                schemas := rs.schemas ++ [(key, response.schema)] }
                  let rs' ← resolve_refs env fuel (response.references.getD []) rs
                  .ok { rs' with seen := insertA rs'.seen key 1 }

/-- The `for dep in refs` loop of `resolve`: strip an optional `-value`
suffix from the reference subject and recurse. -/
def resolve_refs (env : RegEnv) (fuel : Nat) (refs : List Reference)
    (rs : ResolveState) : Except RegistryError ResolveState :=
  match fuel with
  | 0 => .error .outOfFuel
  | fuel + 1 =>
      match refs with
      | [] => .ok rs
      | dep :: rest => do
          let rs' ← resolve env fuel (strip_value dep.subject) dep.version rs
          resolve_refs env fuel rest rs'
end

/-- `AvroRegistry`'s owned state: the parsed-schema cache (with `Rc` handles
modelled as allocation-id/schema pairs), the raw-text cache, and the
allocation counter backing `Rc::from`. The unused `cache2` field of the
source is omitted. -/
structure AvroRegistry where
  cache : List ((String × Int) × (Nat × AvroSchema))
  cacheRaw : List ((String × Int) × String)
  nextRc : Nat
deriving Repr

/-- The cache-filling loop of `get`:
`for i in 0..avro_schemas.len() { self.cache.insert(schemas[i].key, Rc::from(value.clone())) }`.
If the parser returned more schemas than raw texts the `schemas[i]` access
panics. Each `Rc::from` allocates a fresh handle. -/
def fillCache (parsed : List AvroSchema) (keys : List ((String × Int) × String))
    (cache : List ((String × Int) × (Nat × AvroSchema))) (nextRc : Nat) :
    Except RegistryError (List ((String × Int) × (Nat × AvroSchema)) × Nat) :=
  match parsed, keys with
  | [], _ => .ok (cache, nextRc)
  | _ :: _, [] => .error .panicIndex
  | p :: ps, (k, _) :: ks => fillCache ps ks (insertA cache k (nextRc, p)) (nextRc + 1)

/-- `AvroRegistry::get` from `src/sregistry/src/avro.rs`: expanded-cache
lookup, `resolve`, one batch `Schema::parse_list`, cache fill, and the final
`self.cache[&key]` read. The returned triple is the `Rc` handle, the new
registry state, and the HTTP GETs issued during the call. -/
def AvroRegistry.get (env : RegEnv) (fuel : Nat) (subject : String) (version : Int)
    (reg : AvroRegistry) :
    Except RegistryError ((Nat × AvroSchema) × AvroRegistry × List (String × Int)) :=
  let key := (subject, version)
  match lookupA reg.cache key with
  | some rc => .ok (rc, reg, [])
  | none => do
      let rs ← resolve env fuel subject version
        { cacheRaw := reg.cacheRaw, schemas := [], seen := [], log := [] }
      match env.parse_list (rs.schemas.map (·.2)) with
      | .error e => .error (.deserializationFailed (toString e))
      | .ok avro_schemas => do
          let (cache', nextRc') ← fillCache avro_schemas rs.schemas reg.cache reg.nextRc
          match lookupA cache' key with
          | some rc => .ok (rc, ⟨cache', rs.cacheRaw, nextRc'⟩, rs.log)
          | none => .error .panicIndex

/-- Number of HTTP GETs issued for one key in a log. -/
def countKey (log : List (String × Int)) (k : String × Int) : Nat :=
  log.countP (fun e => e = k)

mutual
/-- Does a schema tree contain a `ref` node anywhere? -/
def containsRef : AvroSchema → Bool
  | .ref _ => true
  | .array items => containsRef items
  | .map types => containsRef types
  | .record _ fields => containsRefFields fields
  | .union variants => containsRefList variants
  | _ => false

def containsRefFields : List (String × AvroSchema) → Bool
  | [] => false
  | (_, s) :: rest => containsRef s || containsRefFields rest

def containsRefList : List AvroSchema → Bool
  | [] => false
  | s :: rest => containsRef s || containsRefList rest
end

mutual
/-- Shape compatibility between a builder and a schema: exactly the builder
shapes `create_builder` produces for the schema (metadata such as tz strings
and decimal precision is not constrained, since `append_record` never reads
it). A union matches through its `[Null, T]` second variant, mirroring
`create_builder`'s union arm. -/
def bmatches : ArrayBuilder → AvroSchema → Bool
  | .nullB _, .null => true
  | .booleanB _, .boolean => true
  | .int32B _, .int => true
  | .int64B _, .long => true
  | .float32B _, .float => true
  | .float64B _, .double => true
  | .decimal128B _ _ _, .decimal _ _ => true
  | .date32B _, .date => true
  | .time32msB _, .timeMillis => true
  | .time64usB _, .timeMicros => true
  | .timestampMsB _ _, .timestampMillis => true
  | .timestampUsB _ _, .timestampMicros => true
  | .timestampNsB _ _, .timestampNanos => true
  | .timestampMsB _ _, .localTimestampMillis => true
  | .timestampUsB _ _, .localTimestampMicros => true
  | .timestampNsB _ _, .localTimestampNanos => true
  | .stringB _, .string => true
  | .stringB _, .enumS _ => true
  | .binaryB _, .bytes => true
  | .fixedSizeBinaryB size _, .uuid => size == 16
  | .fixedSizeBinaryB size _, .fixed n => size == n
  | .listB _ values, .array items => bmatches values items
  | .mapB _ _ values, .map types => bmatches values types
  | .structB _ _ children, .record _ sfields => bmatchesChildren children sfields
  | b, .union variants =>
      match variants with
      | [.null, t] => bmatches b t
      | _ => false
  | _, _ => false

def bmatchesChildren : List ArrayBuilder → List (String × AvroSchema) → Bool
  | [], [] => true
  | c :: cs, (_, s) :: ss => bmatches c s && bmatchesChildren cs ss
  | _, _ => false
end

mutual
/-- Internal coherence of a builder tree: every struct child has the length
of its struct's validity buffer, and every map builder's key and values
builders have equal lengths. -/
def balanced : ArrayBuilder → Bool
  | .listB _ values => balanced values
  | .mapB _ keys values => (keys.length == builderLen values) && balanced values
  | .structB _ validity children => balancedChildren validity.length children
  | _ => true

def balancedChildren (n : Nat) : List ArrayBuilder → Bool
  | [] => true
  | c :: cs => (builderLen c == n) && balanced c && balancedChildren n cs
end

mutual
/-- Strict conformance of a decoded value to a schema: the mirror-shape
relation of the data model, restricted so that every position the appender
touches is appendable. A bare `Null` is allowed at every leaf, array and map
position; a record position requires a record value whose field list aligns
positionally and has the schema's length; a union position requires a
`[Null, T]` union schema and a union-wrapped value. In particular `Null` is
not allowed at record positions (where `StructBuilder::append_null` would
skip the children) nor bare at union positions (where the appender panics). -/
def conforms : AvroSchema → AvroValue → Bool
  | .boolean, .null => true
  | .boolean, .boolean _ => true
  | .int, .null => true
  | .int, .int _ => true
  | .long, .null => true
  | .long, .long _ => true
  | .float, .null => true
  | .float, .float _ => true
  | .double, .null => true
  | .double, .double _ => true
  | .decimal _ _, .null => true
  | .decimal _ _, .decimal _ => true
  | .date, .null => true
  | .date, .date _ => true
  | .timeMillis, .null => true
  | .timeMillis, .timeMillis _ => true
  | .timeMicros, .null => true
  | .timeMicros, .timeMicros _ => true
  | .timestampMillis, .null => true
  | .timestampMillis, .timestampMillis _ => true
  | .timestampMicros, .null => true
  | .timestampMicros, .timestampMicros _ => true
  | .timestampNanos, .null => true
  | .timestampNanos, .timestampNanos _ => true
  | .localTimestampMillis, .null => true
  | .localTimestampMillis, .localTimestampMillis _ => true
  | .localTimestampMicros, .null => true
  | .localTimestampMicros, .localTimestampMicros _ => true
  | .localTimestampNanos, .null => true
  | .localTimestampNanos, .localTimestampNanos _ => true
  | .string, .null => true
  | .string, .string _ => true
  | .enumS _, .null => true
  | .enumS _, .enumV _ _ => true
  | .bytes, .null => true
  | .bytes, .bytes _ => true
  | .uuid, .null => true
  | .uuid, .uuid bs => bs.length == 16
  | .fixed _, .null => true
  | .fixed n, .fixed _ bs => bs.length == n
  | .array _, .null => true
  | .array items, .array vs => conformsItems items vs
  | .map _, .null => true
  | .map types, .map pairs => conformsPairs types pairs
  | .record _ sfields, .record vfields =>
      (vfields.length == sfields.length) && conformsPrefix sfields vfields
  | .union variants, .union _ inner =>
      match variants with
      | [.null, t] => conforms t inner
      | _ => false
  | _, _ => false

/-- Positional conformance of value fields to a prefix of the schema fields
(the value list may be shorter). -/
def conformsPrefix : List (String × AvroSchema) → List (String × AvroValue) → Bool
  | _, [] => true
  | [], _ :: _ => false
  | (_, s) :: ss, (_, v) :: vs => conforms s v && conformsPrefix ss vs

def conformsItems (items : AvroSchema) : List AvroValue → Bool
  | [] => true
  | v :: vs => conforms items v && conformsItems items vs

def conformsPairs (types : AvroSchema) : List (String × AvroValue) → Bool
  | [] => true
  | (_, v) :: vs => conforms types v && conformsPairs types vs
end

mutual
/-- Row alignment at row count `n`: every builder reachable from the root
without entering the values builder of a list or map has length `n`. -/
def rowAligned (n : Nat) : ArrayBuilder → Bool
  | .listB validity _ => validity.length == n
  | .mapB validity _ _ => validity.length == n
  | .structB _ validity children =>
      (validity.length == n) && rowAlignedChildren n children
  | b => builderLen b == n

def rowAlignedChildren (n : Nat) : List ArrayBuilder → Bool
  | [] => true
  | c :: cs => rowAligned n c && rowAlignedChildren n cs
end

mutual
/-- The literal reading of the claimed invariant: every leaf builder in the
whole tree (keys builders and builders nested inside list/map values builders
included) has length `n`. -/
def allLeavesLen (n : Nat) : ArrayBuilder → Bool
  | .listB _ values => allLeavesLen n values
  | .mapB _ keys values => (keys.length == n) && allLeavesLen n values
  | .structB _ _ children => allLeavesLenChildren n children
  | b => builderLen b == n

def allLeavesLenChildren (n : Nat) : List ArrayBuilder → Bool
  | [] => true
  | c :: cs => allLeavesLen n c && allLeavesLenChildren n cs
end

mutual
/-- The second half of the claimed invariant: everywhere in the tree, each
child of a struct builder has the struct's length. -/
def structChildrenEq : ArrayBuilder → Bool
  | .listB _ values => structChildrenEq values
  | .mapB _ _ values => structChildrenEq values
  | .structB _ validity children => structChildrenEqList validity.length children
  | _ => true

def structChildrenEqList (n : Nat) : List ArrayBuilder → Bool
  | [] => true
  | c :: cs => (builderLen c == n) && structChildrenEq c && structChildrenEqList n cs
end

mutual
/-- All tz strings of `Timestamp(_, Some(tz))` data types in a data type
tree. -/
def dataTypeTzs : DataType → List String
  | .timestamp _ (some tz) => [tz]
  | .listT item => afieldTzs item
  | .mapT entries _ => afieldTzs entries
  | .structT fields => afieldsTzs fields
  | _ => []

def afieldTzs : AField → List String
  | .mk _ dt _ => dataTypeTzs dt

def afieldsTzs : List AField → List String
  | [] => []
  | f :: fs => afieldTzs f ++ afieldsTzs fs
end

mutual
/-- All tz strings carried by timestamp builders in a builder tree, together
with the tz strings inside struct field metadata. -/
def builderTzs : ArrayBuilder → List String
  | .timestampMsB (some tz) _ => [tz]
  | .timestampUsB (some tz) _ => [tz]
  | .timestampNsB (some tz) _ => [tz]
  | .listB _ values => builderTzs values
  | .mapB _ _ values => builderTzs values
  | .structB fields _ children => afieldsTzs fields ++ builderTzsChildren children
  | _ => []

def builderTzsChildren : List ArrayBuilder → List String
  | [] => []
  | c :: cs => builderTzs c ++ builderTzsChildren cs
end

/-- n successive top-level `append_record` calls (the per-batch driver loop
of the callers, e.g. `to_arrow` in the tests). -/
def appendMany (s : AvroSchema) : ArrayBuilder → List AvroValue → Except AppendError ArrayBuilder
  | b, [] => .ok b
  | b, v :: vs => do
      let b' ← append_record b s v
      appendMany s b' vs

mutual
/-- Modelled from the spec: conformance of a decoded value to a schema
exactly as the data model of the specification describes it ("a tagged tree
mirroring the schema variants", union values carrying a discriminator index
and the inner value, with `Null` as the inner value of a `[Null, T]` union
for absent data). It differs from `conforms` only at union positions, where
the spec admits a `Null` inner value for any `T`. -/
def conformsSpec : AvroSchema → AvroValue → Bool
  | .boolean, .null => true
  | .boolean, .boolean _ => true
  | .int, .null => true
  | .int, .int _ => true
  | .long, .null => true
  | .long, .long _ => true
  | .float, .null => true
  | .float, .float _ => true
  | .double, .null => true
  | .double, .double _ => true
  | .decimal _ _, .null => true
  | .decimal _ _, .decimal _ => true
  | .date, .null => true
  | .date, .date _ => true
  | .timeMillis, .null => true
  | .timeMillis, .timeMillis _ => true
  | .timeMicros, .null => true
  | .timeMicros, .timeMicros _ => true
  | .timestampMillis, .null => true
  | .timestampMillis, .timestampMillis _ => true
  | .timestampMicros, .null => true
  | .timestampMicros, .timestampMicros _ => true
  | .timestampNanos, .null => true
  | .timestampNanos, .timestampNanos _ => true
  | .localTimestampMillis, .null => true
  | .localTimestampMillis, .localTimestampMillis _ => true
  | .localTimestampMicros, .null => true
  | .localTimestampMicros, .localTimestampMicros _ => true
  | .localTimestampNanos, .null => true
  | .localTimestampNanos, .localTimestampNanos _ => true
  | .string, .null => true
  | .string, .string _ => true
  | .enumS _, .null => true
  | .enumS _, .enumV _ _ => true
  | .bytes, .null => true
  | .bytes, .bytes _ => true
  | .uuid, .null => true
  | .uuid, .uuid bs => bs.length == 16
  | .fixed _, .null => true
  | .fixed n, .fixed _ bs => bs.length == n
  | .array _, .null => true
  | .array items, .array vs => conformsSpecItems items vs
  | .map _, .null => true
  | .map types, .map pairs => conformsSpecPairs types pairs
  | .record _ sfields, .record vfields =>
      (vfields.length == sfields.length) && conformsSpecPrefix sfields vfields
  | .union variants, .union _ inner =>
      match variants with
      | [.null, t] =>
          (match inner with
           | .null => true
           | _ => conformsSpec t inner)
      | _ => false
  | _, _ => false

def conformsSpecPrefix : List (String × AvroSchema) → List (String × AvroValue) → Bool
  | _, [] => true
  | [], _ :: _ => false
  | (_, s) :: ss, (_, v) :: vs => conformsSpec s v && conformsSpecPrefix ss vs

def conformsSpecItems (items : AvroSchema) : List AvroValue → Bool
  | [] => true
  | v :: vs => conformsSpec items v && conformsSpecItems items vs

def conformsSpecPairs (types : AvroSchema) : List (String × AvroValue) → Bool
  | [] => true
  | (_, v) :: vs => conformsSpec types v && conformsSpecPairs types vs
end

/-- The schema variants for which `append_record` has an arm other than the
`Union` arm and the unsupported fall-through: exactly the positions where the
`convert!`-style arms and the container arms accept a bare `Null` value. -/
def null_accepted : AvroSchema → Bool
  | .union _ => false
  | .null => false
  | .bigDecimal => false
  | .ref _ => false
  | .duration => false
  | _ => true

/-- Concrete schema for the builder-length scenarios: a record with a
nullable nested record field and an int-array field. -/
def cexSchema : AvroSchema :=
  .record "r" [("f", .union [.null, .record "s" [("x", .int)]]), ("a", .array .int)]

/-- One decoded value for `cexSchema`: the nested record is absent
(`Union(0, Null)`, as the WSL decoder encodes a null union branch) and the
array has two elements. -/
def cexValue : AvroValue :=
  .record [("f", .union 0 .null), ("a", .array [.int 1, .int 2])]

/-- The builder tree `create_builder` allocates for `cexSchema`. -/
def cexBuilder0 : ArrayBuilder :=
  .structB
    [.mk "f" (.structT [.mk "x" .int32 false]) true,
     .mk "a" (.listT (.mk "item" .int32 false)) false]
    []
    [.structB [.mk "x" .int32 false] [] [.int32B []],
     .listB [] (.int32B [])]

/-- The builder tree after appending `cexValue` once: the nested struct got a
null slot but its child is untouched, and the list's values builder holds two
elements. -/
def cexBuilder1 : ArrayBuilder :=
  .structB
    [.mk "f" (.structT [.mk "x" .int32 false]) true,
     .mk "a" (.listT (.mk "item" .int32 false)) false]
    [true]
    [.structB [.mk "x" .int32 false] [false] [.int32B []],
     .listB [true] (.int32B [some 1, some 2])]

/-- A mock registry environment with a two-level reference chain, mirroring
the transitive-reference test: `User:2` references `Address:1`; the batch
parser resolves the cross-reference by emitting a `ref` node inside the
`User` record, as `Schema::parse_list` does. -/
def envRefs : RegEnv where
  get_subject := fun sub ver =>
    match sub, ver with
    | "User", 2 => .ok ⟨202, "user-raw", "AVRO", some [⟨"Address", "Address-value", 1⟩]⟩
    | "Address", 1 => .ok ⟨101, "address-raw", "AVRO", none⟩
    | _, _ => .error "not found"
  parse_list := fun raws =>
    match raws with
    | ["user-raw", "address-raw"] =>
        .ok [.record "User" [("id", .long), ("address", .ref "Address")],
             .record "Address" [("id", .long)]]
    | _ => .error "parse error"

/-- A minimal one-subject registry environment with no references. -/
def envW : RegEnv where
  get_subject := fun sub ver =>
    match sub, ver with
    | "A", 1 => .ok ⟨7, "a-raw", "AVRO", none⟩
    | _, _ => .error "not found"
  parse_list := fun raws =>
    match raws with
    | ["a-raw"] => .ok [.record "A" [("id", .long)]]
    | _ => .error "parse error"

/-- A freshly constructed `AvroRegistry` (empty caches). -/
def regEmpty : AvroRegistry := ⟨[], [], 0⟩

/- ----------------------------------------------------------------- -/
/- Helper lemmas                                                     -/
/- ----------------------------------------------------------------- -/

theorem bmatchesChildren_length :
    ∀ {cs : List ArrayBuilder} {ss : List (String × AvroSchema)},
      bmatchesChildren cs ss = true → cs.length = ss.length
  | [], [], _ => rfl
  | [], _ :: _, h => Bool.noConfusion h
  | _ :: _, [], h => Bool.noConfusion h
  | c :: cs, (_, s) :: ss, h => by
      have h' : (bmatches c s && bmatchesChildren cs ss) = true := h
      rw [Bool.and_eq_true] at h'
      simpa [List.length_cons] using bmatchesChildren_length h'.2

theorem bmatchesChildren_get :
    ∀ {cs : List ArrayBuilder} {ss : List (String × AvroSchema)},
      bmatchesChildren cs ss = true →
      ∀ (k : Nat) (c : ArrayBuilder) (nm : String) (sk : AvroSchema),
        cs[k]? = some c → ss[k]? = some (nm, sk) → bmatches c sk = true
  | [], _, _, _, _, _, _, hc, _ => by simp at hc
  | _ :: _, [], h, _, _, _, _, _, _ => Bool.noConfusion h
  | c₀ :: cs, (_, s₀) :: ss, h, k, c, nm, sk, hc, hs => by
      have h' : (bmatches c₀ s₀ && bmatchesChildren cs ss) = true := h
      rw [Bool.and_eq_true] at h'
      match k with
      | 0 =>
          simp only [List.getElem?_cons_zero, Option.some.injEq] at hc hs
          subst hc
          cases hs
          exact h'.1
      | k + 1 =>
          simp only [List.getElem?_cons_succ] at hc hs
          exact bmatchesChildren_get h'.2 k c nm sk hc hs

theorem bmatchesChildren_of_get :
    ∀ {cs : List ArrayBuilder} {ss : List (String × AvroSchema)},
      cs.length = ss.length →
      (∀ (k : Nat) (c : ArrayBuilder) (nm : String) (sk : AvroSchema),
        cs[k]? = some c → ss[k]? = some (nm, sk) → bmatches c sk = true) →
      bmatchesChildren cs ss = true
  | [], [], _, _ => rfl
  | [], _ :: _, h, _ => by simp at h
  | _ :: _, [], h, _ => by simp at h
  | c₀ :: cs, (nm₀, s₀) :: ss, hlen, h => by
      show (bmatches c₀ s₀ && bmatchesChildren cs ss) = true
      rw [Bool.and_eq_true]
      refine ⟨h 0 c₀ nm₀ s₀ (by simp) (by simp), ?_⟩
      exact bmatchesChildren_of_get (by simpa using hlen)
        (fun k c nm sk hc hs => h (k + 1) c nm sk (by simpa using hc) (by simpa using hs))

theorem balancedChildren_mem :
    ∀ {n : Nat} {cs : List ArrayBuilder},
      balancedChildren n cs = true → ∀ c ∈ cs, builderLen c = n ∧ balanced c = true
  | _, [], _, c, hc => by simp at hc
  | n, c₀ :: cs, h, c, hc => by
      have h' : ((builderLen c₀ == n) && balanced c₀ && balancedChildren n cs) = true := h
      simp only [Bool.and_eq_true, beq_iff_eq] at h'
      rcases List.mem_cons.mp hc with rfl | hc
      · exact ⟨h'.1.1, h'.1.2⟩
      · exact balancedChildren_mem h'.2 c hc

theorem balancedChildren_of_mem :
    ∀ {n : Nat} {cs : List ArrayBuilder},
      (∀ c ∈ cs, builderLen c = n ∧ balanced c = true) → balancedChildren n cs = true
  | _, [], _ => rfl
  | n, c₀ :: cs, h => by
      show ((builderLen c₀ == n) && balanced c₀ && balancedChildren n cs) = true
      simp only [Bool.and_eq_true, beq_iff_eq]
      exact ⟨⟨(h c₀ (by simp)).1, (h c₀ (by simp)).2⟩,
        balancedChildren_of_mem (fun c hc => h c (List.mem_cons_of_mem _ hc))⟩

theorem conformsPrefix_length :
    ∀ {ss : List (String × AvroSchema)} {vs : List (String × AvroValue)},
      conformsPrefix ss vs = true → vs.length ≤ ss.length
  | _, [], _ => by simp
  | [], _ :: _, h => Bool.noConfusion h
  | (_, s) :: ss, (_, v) :: vs, h => by
      have h' : (conforms s v && conformsPrefix ss vs) = true := h
      rw [Bool.and_eq_true] at h'
      simpa [List.length_cons] using Nat.succ_le_succ (conformsPrefix_length h'.2)

theorem conformsPrefix_get :
    ∀ {ss : List (String × AvroSchema)} {vs : List (String × AvroValue)},
      conformsPrefix ss vs = true →
      ∀ (k : Nat) (nmv : String) (v : AvroValue) (nm : String) (sk : AvroSchema),
        vs[k]? = some (nmv, v) → ss[k]? = some (nm, sk) → conforms sk v = true
  | _, [], _, k, _, _, _, _, hv, _ => by simp at hv
  | [], _ :: _, h, _, _, _, _, _, _, _ => Bool.noConfusion h
  | (_, s₀) :: ss, (_, v₀) :: vs, h, k, nmv, v, nm, sk, hv, hs => by
      have h' : (conforms s₀ v₀ && conformsPrefix ss vs) = true := h
      rw [Bool.and_eq_true] at h'
      match k with
      | 0 =>
          simp only [List.getElem?_cons_zero, Option.some.injEq] at hv hs
          cases hv
          cases hs
          exact h'.1
      | k + 1 =>
          simp only [List.getElem?_cons_succ] at hv hs
          exact conformsPrefix_get h'.2 k nmv v nm sk hv hs

theorem conformsItems_mem :
    ∀ {t : AvroSchema} {vs : List AvroValue},
      conformsItems t vs = true → ∀ v ∈ vs, conforms t v = true
  | _, [], _, v, hv => by simp at hv
  | t, v₀ :: vs, h, v, hv => by
      have h' : (conforms t v₀ && conformsItems t vs) = true := h
      rw [Bool.and_eq_true] at h'
      rcases List.mem_cons.mp hv with rfl | hv
      · exact h'.1
      · exact conformsItems_mem h'.2 v hv

theorem conformsPairs_mem :
    ∀ {t : AvroSchema} {vs : List (String × AvroValue)},
      conformsPairs t vs = true → ∀ v ∈ vs, conforms t v.2 = true
  | _, [], _, v, hv => by simp at hv
  | t, (k₀, v₀) :: vs, h, v, hv => by
      have h' : (conforms t v₀ && conformsPairs t vs) = true := h
      rw [Bool.and_eq_true] at h'
      rcases List.mem_cons.mp hv with rfl | hv
      · exact h'.1
      · exact conformsPairs_mem h'.2 v hv

/-- Behaviour of the `Array`-arm loop on conforming items, parameterized by
the induction hypothesis for `append_record` on the items. -/
theorem append_array_items_spec (inner : AvroSchema) :
    ∀ (items : List AvroValue) (vb : ArrayBuilder),
      (∀ it ∈ items, ∀ b, bmatches b inner = true → balanced b = true →
        conforms inner it = true →
        ∃ b', append_record b inner it = .ok b' ∧ builderLen b' = builderLen b + 1 ∧
          bmatches b' inner = true ∧ balanced b' = true) →
      bmatches vb inner = true → balanced vb = true → conformsItems inner items = true →
      ∃ vb', append_array_items vb inner items = .ok vb' ∧
        builderLen vb' = builderLen vb + items.length ∧
        bmatches vb' inner = true ∧ balanced vb' = true
  | [], vb, _, hm, hb, _ => ⟨vb, rfl, by simp, hm, hb⟩
  | item :: rest, vb, IH, hm, hb, hc => by
      have hc' : (conforms inner item && conformsItems inner rest) = true := hc
      rw [Bool.and_eq_true] at hc'
      obtain ⟨b1, he, hl, hm1, hb1⟩ := IH item (by simp) vb hm hb hc'.1
      obtain ⟨vb', he', hl', hm', hb'⟩ := append_array_items_spec inner rest b1
        (fun it hit => IH it (List.mem_cons_of_mem _ hit)) hm1 hb1 hc'.2
      refine ⟨vb', ?_, by simp only [List.length_cons]; omega, hm', hb'⟩
      show (append_record vb inner item >>= fun values' =>
        append_array_items values' inner rest) = .ok vb'
      rw [he]
      exact he'

/-- Behaviour of the `Map`-arm loop on conforming pairs: one key appended per
pair and one row appended into the values builder per pair. -/
theorem append_map_pairs_spec (inner : AvroSchema) :
    ∀ (pairs : List (String × AvroValue)) (keys : List (Option String)) (vb : ArrayBuilder),
      (∀ p ∈ pairs, ∀ b, bmatches b inner = true → balanced b = true →
        conforms inner p.2 = true →
        ∃ b', append_record b inner p.2 = .ok b' ∧ builderLen b' = builderLen b + 1 ∧
          bmatches b' inner = true ∧ balanced b' = true) →
      bmatches vb inner = true → balanced vb = true → conformsPairs inner pairs = true →
      ∃ vb', append_map_pairs keys vb inner pairs =
          .ok (keys ++ pairs.map (fun p => some p.1), vb') ∧
        builderLen vb' = builderLen vb + pairs.length ∧
        bmatches vb' inner = true ∧ balanced vb' = true
  | [], keys, vb, _, hm, hb, _ => ⟨vb, by simp [append_map_pairs], by simp, hm, hb⟩
  | (k₀, v₀) :: rest, keys, vb, IH, hm, hb, hc => by
      have hc' : (conforms inner v₀ && conformsPairs inner rest) = true := hc
      rw [Bool.and_eq_true] at hc'
      obtain ⟨b1, he, hl, hm1, hb1⟩ := IH (k₀, v₀) (by simp) vb hm hb hc'.1
      obtain ⟨vb', he', hl', hm', hb'⟩ := append_map_pairs_spec inner rest
        (keys ++ [some k₀]) b1
        (fun p hp => IH p (List.mem_cons_of_mem _ hp)) hm1 hb1 hc'.2
      refine ⟨vb', ?_, by simp only [List.length_cons]; omega, hm', hb'⟩
      show (append_record vb inner v₀ >>= fun values' =>
        append_map_pairs (keys ++ [some k₀]) values' inner rest) = _
      rw [he]
      simpa using he'

/-- Behaviour of the `Record`-arm loop: the value fields are appended into
the child builders at positions `i, i+1, ...`; children outside that window
are untouched. Parameterized by the induction hypothesis for `append_record`
on the value fields. -/
theorem append_record_fields_spec (sfields : List (String × AvroSchema)) :
    ∀ (vfields : List (String × AvroValue)) (i : Nat) (children : List ArrayBuilder),
      (∀ p ∈ vfields, ∀ (b : ArrayBuilder) (s : AvroSchema),
          bmatches b s = true → balanced b = true → conforms s p.2 = true →
          ∃ b', append_record b s p.2 = .ok b' ∧ builderLen b' = builderLen b + 1 ∧
            bmatches b' s = true ∧ balanced b' = true) →
      (∀ k, k < vfields.length →
        ∃ nm sk cb nmv vv, sfields[i + k]? = some (nm, sk) ∧
          children[i + k]? = some cb ∧ vfields[k]? = some (nmv, vv) ∧
          bmatches cb sk = true ∧ balanced cb = true ∧ conforms sk vv = true) →
      ∃ children', append_record_fields children sfields vfields i = .ok children' ∧
        children'.length = children.length ∧
        (∀ j, (j < i ∨ i + vfields.length ≤ j) → children'[j]? = children[j]?) ∧
        (∀ k, k < vfields.length →
          ∃ cb cb', children[i + k]? = some cb ∧ children'[i + k]? = some cb' ∧
            builderLen cb' = builderLen cb + 1 ∧ balanced cb' = true ∧
            ∀ nm sk, sfields[i + k]? = some (nm, sk) → bmatches cb' sk = true)
  | [], i, children, _, _ =>
      ⟨children, rfl, rfl, fun _ _ => rfl, fun k hk => absurd hk (by simp)⟩
  | (nmv₀, fv) :: rest, i, children, IH, hidx => by
      obtain ⟨nm, sk, cb, nmv', vv, hs0, hc0, hv0, hm0, hb0, hcf0⟩ := hidx 0 (by simp)
      rw [Nat.add_zero] at hs0 hc0
      simp only [List.getElem?_cons_zero, Option.some.injEq, Prod.mk.injEq] at hv0
      rw [← hv0.2] at hcf0
      obtain ⟨cb', he, hl, hm', hb'⟩ := IH (nmv₀, fv) (by simp) cb sk hm0 hb0 hcf0
      have hilt : i < children.length := by
        by_contra hlt
        rw [List.getElem?_eq_none (Nat.le_of_not_lt hlt)] at hc0
        exact Option.noConfusion hc0
      obtain ⟨children'', he'', hlen'', huntouched'', htouched''⟩ :=
        append_record_fields_spec sfields rest (i + 1) (children.set i cb')
          (fun p hp => IH p (List.mem_cons_of_mem _ hp))
          (by
            intro k hk
            obtain ⟨nm₁, sk₁, cb₁, nmv₁, vv₁, hs₁, hc₁, hv₁, hm₁, hb₁, hcf₁⟩ :=
              hidx (k + 1) (by simpa using Nat.succ_lt_succ hk)
            have harith : i + (k + 1) = i + 1 + k := by omega
            rw [harith] at hs₁ hc₁
            refine ⟨nm₁, sk₁, cb₁, nmv₁, vv₁, hs₁, ?_, by simpa using hv₁, hm₁, hb₁, hcf₁⟩
            rw [List.getElem?_set_ne (by omega)]
            exact hc₁)
      refine ⟨children'', ?_, by simpa using hlen'', ?_, ?_⟩
      · show (match sfields[i]? with
          | none => Except.error AppendError.indexOutOfBounds
          | some (_, f_schema) =>
              match children[i]? with
              | none => Except.error AppendError.indexOutOfBounds
              | some cb => do
                  let cb' ← append_record cb f_schema fv
                  append_record_fields (children.set i cb') sfields rest (i + 1)) =
          Except.ok children''
        rw [hs0, hc0]
        show (append_record cb sk fv >>= fun cb' =>
          append_record_fields (children.set i cb') sfields rest (i + 1)) = _
        rw [he]
        exact he''
      · intro j hj
        have h1 : children''[j]? = (children.set i cb')[j]? := by
          refine huntouched'' j ?_
          rcases hj with hj | hj
          · exact Or.inl (by omega)
          · simp only [List.length_cons] at hj
            exact Or.inr (by omega)
        have hne : i ≠ j := by
          rcases hj with hj | hj
          · omega
          · simp only [List.length_cons] at hj
            omega
        rw [h1, List.getElem?_set_ne hne]
      · intro k hk
        match k with
        | 0 =>
            refine ⟨cb, cb', by simpa using hc0, ?_, hl, hb', ?_⟩
            · have h1 : children''[i]? = (children.set i cb')[i]? :=
                huntouched'' i (Or.inl (by omega))
              rw [Nat.add_zero, h1, List.getElem?_set_self hilt]
            · intro nm₂ sk₂ hs₂
              rw [Nat.add_zero, hs0] at hs₂
              cases hs₂
              exact hm'
        | k + 1 =>
            obtain ⟨cb₁, cb₁', hcb₁, hcb₁', hl₁, hb₁, hm₁⟩ :=
              htouched'' k (by simpa using Nat.lt_of_succ_lt_succ hk)
            have harith : i + (k + 1) = i + 1 + k := by omega
            rw [List.getElem?_set_ne (by omega)] at hcb₁
            refine ⟨cb₁, cb₁', by rw [harith]; exact hcb₁, by rw [harith]; exact hcb₁',
              hl₁, hb₁, ?_⟩
            intro nm₂ sk₂ hs₂
            rw [harith] at hs₂
            exact hm₁ nm₂ sk₂ hs₂


/-- `bmatches` through a two-variant `[Null, T]` union is `bmatches` against
`T`, mirroring `create_builder`'s union arm. -/
theorem bmatches_union_nullT (b : ArrayBuilder) (t : AvroSchema) :
    bmatches b (.union [.null, t]) = bmatches b t := by
  cases b <;> rfl

theorem bmatches_union_nil (b : ArrayBuilder) : bmatches b (.union []) = false := by
  cases b <;> rfl

theorem bmatches_union_single (b : ArrayBuilder) (v0 : AvroSchema) :
    bmatches b (.union [v0]) = false := by
  cases b <;> cases v0 <;> rfl

/-- Main invariant of `append_record`, by strong induction on the size of the
value: on a shape-matching, internally balanced builder, appending a strictly
conforming value succeeds and grows the builder's length by exactly one,
preserving shape and balance. -/
theorem append_record_ok_aux :
    ∀ (n : Nat) (v : AvroValue), sizeOf v ≤ n →
      ∀ (s : AvroSchema) (b : ArrayBuilder),
        bmatches b s = true → balanced b = true → conforms s v = true →
        ∃ b', append_record b s v = .ok b' ∧ builderLen b' = builderLen b + 1 ∧
          bmatches b' s = true ∧ balanced b' = true := by
  intro n
  induction n with
  | zero =>
      intro v hv
      exfalso
      cases v <;> simp at hv
  | succ n ih =>
      intro v hv s b hm hb hc
      cases s with
      | boolean =>
          cases b <;> try exact absurd hm (by exact fun h => Bool.noConfusion h)
          case booleanB vals =>
            cases v <;> try exact absurd hc (by exact fun h => Bool.noConfusion h)
            case null => exact ⟨_, rfl, by simp [builderLen], rfl, rfl⟩
            case boolean x => exact ⟨_, rfl, by simp [builderLen], rfl, rfl⟩
      | int =>
          cases b <;> try exact absurd hm (by exact fun h => Bool.noConfusion h)
          case int32B vals =>
            cases v <;> try exact absurd hc (by exact fun h => Bool.noConfusion h)
            case null => exact ⟨_, rfl, by simp [builderLen], rfl, rfl⟩
            case int x => exact ⟨_, rfl, by simp [builderLen], rfl, rfl⟩
      | long =>
          cases b <;> try exact absurd hm (by exact fun h => Bool.noConfusion h)
          case int64B vals =>
            cases v <;> try exact absurd hc (by exact fun h => Bool.noConfusion h)
            case null => exact ⟨_, rfl, by simp [builderLen], rfl, rfl⟩
            case long x => exact ⟨_, rfl, by simp [builderLen], rfl, rfl⟩
      | float =>
          cases b <;> try exact absurd hm (by exact fun h => Bool.noConfusion h)
          case float32B vals =>
            cases v <;> try exact absurd hc (by exact fun h => Bool.noConfusion h)
            case null => exact ⟨_, rfl, by simp [builderLen], rfl, rfl⟩
            case float x => exact ⟨_, rfl, by simp [builderLen], rfl, rfl⟩
      | double =>
          cases b <;> try exact absurd hm (by exact fun h => Bool.noConfusion h)
          case float64B vals =>
            cases v <;> try exact absurd hc (by exact fun h => Bool.noConfusion h)
            case null => exact ⟨_, rfl, by simp [builderLen], rfl, rfl⟩
            case double x => exact ⟨_, rfl, by simp [builderLen], rfl, rfl⟩
      | decimal p sc =>
          cases b <;> try exact absurd hm (by exact fun h => Bool.noConfusion h)
          case decimal128B bp bsc vals =>
            cases v <;> try exact absurd hc (by exact fun h => Bool.noConfusion h)
            case null => exact ⟨_, rfl, by simp [builderLen], rfl, rfl⟩
            case decimal x => exact ⟨_, rfl, by simp [builderLen], rfl, rfl⟩
      | date =>
          cases b <;> try exact absurd hm (by exact fun h => Bool.noConfusion h)
          case date32B vals =>
            cases v <;> try exact absurd hc (by exact fun h => Bool.noConfusion h)
            case null => exact ⟨_, rfl, by simp [builderLen], rfl, rfl⟩
            case date x => exact ⟨_, rfl, by simp [builderLen], rfl, rfl⟩
      | timeMillis =>
          cases b <;> try exact absurd hm (by exact fun h => Bool.noConfusion h)
          case time32msB vals =>
            cases v <;> try exact absurd hc (by exact fun h => Bool.noConfusion h)
            case null => exact ⟨_, rfl, by simp [builderLen], rfl, rfl⟩
            case timeMillis x => exact ⟨_, rfl, by simp [builderLen], rfl, rfl⟩
      | timeMicros =>
          cases b <;> try exact absurd hm (by exact fun h => Bool.noConfusion h)
          case time64usB vals =>
            cases v <;> try exact absurd hc (by exact fun h => Bool.noConfusion h)
            case null => exact ⟨_, rfl, by simp [builderLen], rfl, rfl⟩
            case timeMicros x => exact ⟨_, rfl, by simp [builderLen], rfl, rfl⟩
      | timestampMillis =>
          cases b <;> try exact absurd hm (by exact fun h => Bool.noConfusion h)
          case timestampMsB tz vals =>
            cases v <;> try exact absurd hc (by exact fun h => Bool.noConfusion h)
            case null => exact ⟨_, rfl, by simp [builderLen], rfl, rfl⟩
            case timestampMillis x => exact ⟨_, rfl, by simp [builderLen], rfl, rfl⟩
      | timestampMicros =>
          cases b <;> try exact absurd hm (by exact fun h => Bool.noConfusion h)
          case timestampUsB tz vals =>
            cases v <;> try exact absurd hc (by exact fun h => Bool.noConfusion h)
            case null => exact ⟨_, rfl, by simp [builderLen], rfl, rfl⟩
            case timestampMicros x => exact ⟨_, rfl, by simp [builderLen], rfl, rfl⟩
      | timestampNanos =>
          cases b <;> try exact absurd hm (by exact fun h => Bool.noConfusion h)
          case timestampNsB tz vals =>
            cases v <;> try exact absurd hc (by exact fun h => Bool.noConfusion h)
            case null => exact ⟨_, rfl, by simp [builderLen], rfl, rfl⟩
            case timestampNanos x => exact ⟨_, rfl, by simp [builderLen], rfl, rfl⟩
      | localTimestampMillis =>
          cases b <;> try exact absurd hm (by exact fun h => Bool.noConfusion h)
          case timestampMsB tz vals =>
            cases v <;> try exact absurd hc (by exact fun h => Bool.noConfusion h)
            case null => exact ⟨_, rfl, by simp [builderLen], rfl, rfl⟩
            case localTimestampMillis x => exact ⟨_, rfl, by simp [builderLen], rfl, rfl⟩
      | localTimestampMicros =>
          cases b <;> try exact absurd hm (by exact fun h => Bool.noConfusion h)
          case timestampUsB tz vals =>
            cases v <;> try exact absurd hc (by exact fun h => Bool.noConfusion h)
            case null => exact ⟨_, rfl, by simp [builderLen], rfl, rfl⟩
            case localTimestampMicros x => exact ⟨_, rfl, by simp [builderLen], rfl, rfl⟩
      | localTimestampNanos =>
          cases b <;> try exact absurd hm (by exact fun h => Bool.noConfusion h)
          case timestampNsB tz vals =>
            cases v <;> try exact absurd hc (by exact fun h => Bool.noConfusion h)
            case null => exact ⟨_, rfl, by simp [builderLen], rfl, rfl⟩
            case localTimestampNanos x => exact ⟨_, rfl, by simp [builderLen], rfl, rfl⟩
      | string =>
          cases b <;> try exact absurd hm (by exact fun h => Bool.noConfusion h)
          case stringB vals =>
            cases v <;> try exact absurd hc (by exact fun h => Bool.noConfusion h)
            case null => exact ⟨_, rfl, by simp [builderLen], rfl, rfl⟩
            case string x => exact ⟨_, rfl, by simp [builderLen], rfl, rfl⟩
      | enumS syms =>
          cases b <;> try exact absurd hm (by exact fun h => Bool.noConfusion h)
          case stringB vals =>
            cases v <;> try exact absurd hc (by exact fun h => Bool.noConfusion h)
            case null => exact ⟨_, rfl, by simp [builderLen], rfl, rfl⟩
            case enumV ord sym => exact ⟨_, rfl, by simp [builderLen], rfl, rfl⟩
      | bytes =>
          cases b <;> try exact absurd hm (by exact fun h => Bool.noConfusion h)
          case binaryB vals =>
            cases v <;> try exact absurd hc (by exact fun h => Bool.noConfusion h)
            case null => exact ⟨_, rfl, by simp [builderLen], rfl, rfl⟩
            case bytes x => exact ⟨_, rfl, by simp [builderLen], rfl, rfl⟩
      | uuid =>
          cases b <;> try exact absurd hm (by exact fun h => Bool.noConfusion h)
          case fixedSizeBinaryB size vals =>
            have hsize : (size == 16) = true := hm
            rw [beq_iff_eq] at hsize
            subst hsize
            cases v <;> try exact absurd hc (by exact fun h => Bool.noConfusion h)
            case null => exact ⟨_, rfl, by simp [builderLen], rfl, rfl⟩
            case uuid bs =>
              have hlen : (bs.length == 16) = true := hc
              refine ⟨.fixedSizeBinaryB 16 (vals ++ [some bs]), ?_,
                by simp [builderLen], rfl, rfl⟩
              show (if bs.length == 16 then
                  (Except.ok (ArrayBuilder.fixedSizeBinaryB 16 (vals ++ [some bs])) :
                    Except AppendError ArrayBuilder)
                else .error .arrowError) = _
              rw [hlen]
              rfl
      | fixed fsize =>
          cases b <;> try exact absurd hm (by exact fun h => Bool.noConfusion h)
          case fixedSizeBinaryB size vals =>
            have hsize : (size == fsize) = true := hm
            rw [beq_iff_eq] at hsize
            subst hsize
            cases v <;> try exact absurd hc (by exact fun h => Bool.noConfusion h)
            case null =>
              exact ⟨_, rfl, by simp [builderLen], beq_self_eq_true _, rfl⟩
            case fixed flen bs =>
              have hlen : (bs.length == size) = true := hc
              refine ⟨.fixedSizeBinaryB size (vals ++ [some bs]), ?_,
                by simp [builderLen], beq_self_eq_true _, rfl⟩
              show (if bs.length == size then
                  (Except.ok (ArrayBuilder.fixedSizeBinaryB size (vals ++ [some bs])) :
                    Except AppendError ArrayBuilder)
                else .error .arrowError) = _
              rw [hlen]
              rfl
      | array inner =>
          cases b <;> try exact absurd hm (by exact fun h => Bool.noConfusion h)
          case listB validity values =>
            have hmv : bmatches values inner = true := hm
            have hbv : balanced values = true := hb
            cases v <;> try exact absurd hc (by exact fun h => Bool.noConfusion h)
            case null =>
              exact ⟨.listB (validity ++ [false]) values, rfl,
                by simp [builderLen], hm, hb⟩
            case array items =>
              have hci : conformsItems inner items = true := hc
              have hsz : sizeOf items ≤ n := by
                simp only [AvroValue.array.sizeOf_spec] at hv
                omega
              obtain ⟨vb', he, hl, hm', hb'⟩ := append_array_items_spec inner items values
                (fun it hit b₀ hm₀ hb₀ hc₀ => ih it
                  (Nat.le_of_lt (Nat.lt_of_lt_of_le (List.sizeOf_lt_of_mem hit) hsz))
                  inner b₀ hm₀ hb₀ hc₀)
                hmv hbv hci
              refine ⟨.listB (validity ++ [true]) vb', ?_, by simp [builderLen], hm', hb'⟩
              show (append_array_items values inner items >>= fun values' =>
                Except.ok (ArrayBuilder.listB (validity ++ [true]) values')) = _
              rw [he]
              rfl
      | map inner =>
          cases b <;> try exact absurd hm (by exact fun h => Bool.noConfusion h)
          case mapB validity keys values =>
            have hmv : bmatches values inner = true := hm
            have hbv : ((keys.length == builderLen values) && balanced values) = true := hb
            rw [Bool.and_eq_true, beq_iff_eq] at hbv
            cases v <;> try exact absurd hc (by exact fun h => Bool.noConfusion h)
            case null =>
              refine ⟨.mapB (validity ++ [false]) keys values, ?_,
                by simp [builderLen], hm, hb⟩
              show (if keys.length == builderLen values then
                  (Except.ok (ArrayBuilder.mapB (validity ++ [false]) keys values) :
                    Except AppendError ArrayBuilder)
                else .error .arrowError) = _
              rw [show (keys.length == builderLen values) = true from beq_iff_eq.mpr hbv.1]
              rfl
            case map pairs =>
              have hcp : conformsPairs inner pairs = true := hc
              have hsz : sizeOf pairs ≤ n := by
                simp only [AvroValue.map.sizeOf_spec] at hv
                omega
              obtain ⟨vb', he, hl, hm', hb'⟩ := append_map_pairs_spec inner pairs keys values
                (fun p hp b₀ hm₀ hb₀ hc₀ => ih p.2
                  (by
                    have h1 := List.sizeOf_lt_of_mem hp
                    have h2 : sizeOf p.2 < sizeOf p := by
                      obtain ⟨p1, p2⟩ := p
                      simp [Prod.mk.sizeOf_spec] <;> omega
                    omega)
                  inner b₀ hm₀ hb₀ hc₀)
                hmv hbv.2 hcp
              have hklen : ((keys ++ pairs.map fun p => some p.1).length ==
                  builderLen vb') = true := by
                rw [beq_iff_eq, List.length_append, List.length_map, hl, hbv.1]
              refine ⟨.mapB (validity ++ [true]) (keys ++ pairs.map fun p => some p.1) vb',
                ?_, by simp [builderLen], hm', ?_⟩
              · show (append_map_pairs keys values inner pairs >>= fun r =>
                  (if r.1.length == builderLen r.2 then
                    (Except.ok (ArrayBuilder.mapB (validity ++ [true]) r.1 r.2) :
                      Except AppendError ArrayBuilder)
                  else .error .arrowError)) = _
                rw [he]
                show (if (keys ++ pairs.map fun p => some p.1).length == builderLen vb' then
                    (Except.ok (ArrayBuilder.mapB (validity ++ [true])
                      (keys ++ pairs.map fun p => some p.1) vb') :
                      Except AppendError ArrayBuilder)
                  else .error .arrowError) = _
                rw [hklen]
                rfl
              · show (((keys ++ pairs.map fun p => some p.1).length ==
                  builderLen vb') && balanced vb') = true
                rw [Bool.and_eq_true]
                exact ⟨hklen, hb'⟩
      | record rnm sfields =>
          cases b <;> try exact absurd hm (by exact fun h => Bool.noConfusion h)
          case structB fmeta validity children =>
            have hmc : bmatchesChildren children sfields = true := hm
            have hbc : balancedChildren validity.length children = true := hb
            have hclen : children.length = sfields.length := bmatchesChildren_length hmc
            cases v <;> try exact absurd hc (by exact fun h => Bool.noConfusion h)
            case record vfields =>
              have hcr : ((vfields.length == sfields.length) &&
                  conformsPrefix sfields vfields) = true := hc
              rw [Bool.and_eq_true, beq_iff_eq] at hcr
              have hsz : sizeOf vfields ≤ n := by
                simp only [AvroValue.record.sizeOf_spec] at hv
                omega
              obtain ⟨children'', he, hlen'', huntouched, htouched⟩ :=
                append_record_fields_spec sfields vfields 0 children
                  (fun p hp b₀ s₀ hm₀ hb₀ hc₀ => ih p.2
                    (by
                      have h1 := List.sizeOf_lt_of_mem hp
                      have h2 : sizeOf p.2 < sizeOf p := by
                        obtain ⟨p1, p2⟩ := p
                        simp [Prod.mk.sizeOf_spec]
                      omega)
                    s₀ b₀ hm₀ hb₀ hc₀)
                  (by
                    intro k hk
                    have hks : k < sfields.length := by omega
                    have hkc : k < children.length := by omega
                    have hsg : sfields[k]? = some sfields[k] := List.getElem?_eq_getElem hks
                    have hcg : children[k]? = some children[k] := List.getElem?_eq_getElem hkc
                    have hvg : vfields[k]? = some vfields[k] := List.getElem?_eq_getElem hk
                    refine ⟨(sfields[k]).1, (sfields[k]).2, children[k],
                      (vfields[k]).1, (vfields[k]).2,
                      by simpa using hsg, by simpa using hcg, by simpa using hvg, ?_, ?_, ?_⟩
                    · exact bmatchesChildren_get hmc k children[k]
                        (sfields[k]).1 (sfields[k]).2 hcg (by simpa using hsg)
                    · exact (balancedChildren_mem hbc children[k]
                        (List.getElem_mem hkc)).2
                    · exact conformsPrefix_get hcr.2 k (vfields[k]).1 (vfields[k]).2
                        (sfields[k]).1 (sfields[k]).2 (by simpa using hvg)
                        (by simpa using hsg))
              refine ⟨.structB fmeta (validity ++ [true]) children'',
                ?_, by simp [builderLen], ?_, ?_⟩
              · show (append_record_fields children sfields vfields 0 >>= fun children' =>
                  Except.ok (ArrayBuilder.structB fmeta (validity ++ [true]) children')) = _
                rw [he]
                rfl
              · show bmatchesChildren children'' sfields = true
                refine bmatchesChildren_of_get (by rw [hlen'', hclen]) ?_
                intro k c nm sk hcg hsg
                have hkc'' : k < children''.length := by
                  by_contra hlt
                  rw [List.getElem?_eq_none (Nat.le_of_not_lt hlt)] at hcg
                  exact Option.noConfusion hcg
                have hkv : k < vfields.length := by
                  rw [hlen'', hclen] at hkc''
                  omega
                obtain ⟨cb, cb', hcb, hcb', hl1, hb1, hm1⟩ := htouched k hkv
                rw [Nat.zero_add] at hcb hcb'
                rw [hcg] at hcb'
                injection hcb' with hcc
                subst hcc
                exact hm1 nm sk (by rw [Nat.zero_add]; exact hsg)
              · show balancedChildren (validity ++ [true]).length children'' = true
                refine balancedChildren_of_mem ?_
                intro c hcm
                obtain ⟨k, hkg⟩ := List.mem_iff_getElem?.mp hcm
                have hkc'' : k < children''.length := by
                  by_contra hlt
                  rw [List.getElem?_eq_none (Nat.le_of_not_lt hlt)] at hkg
                  exact Option.noConfusion hkg
                have hkv : k < vfields.length := by
                  rw [hlen'', hclen] at hkc''
                  omega
                obtain ⟨cb, cb', hcb, hcb', hl1, hb1, hm1⟩ := htouched k hkv
                rw [Nat.zero_add] at hcb hcb'
                rw [hkg] at hcb'
                injection hcb' with hcc
                subst hcc
                have hcbold : builderLen cb = validity.length :=
                  (balancedChildren_mem hbc cb (List.getElem?_mem hcb)).1
                constructor
                · rw [hl1, hcbold]
                  simp
                · exact hb1
      | union variants =>
          rcases variants with _ | ⟨v0, tail⟩
          · rw [bmatches_union_nil] at hm
            exact Bool.noConfusion hm
          rcases tail with _ | ⟨t, tail2⟩
          · rw [bmatches_union_single] at hm
            exact Bool.noConfusion hm
          rcases tail2 with _ | ⟨v2, tail3⟩
          · cases v0 <;>
              first
                | (cases b <;> exact absurd hm (by exact fun h => Bool.noConfusion h))
                | skip
            -- remaining goal: variants = [.null, t]
            rw [bmatches_union_nullT] at hm
            cases v <;> try exact absurd hc (by exact fun h => Bool.noConfusion h)
            case union idx inner =>
              have hct : conforms t inner = true := hc
              have hsz : sizeOf inner ≤ n := by
                simp only [AvroValue.union.sizeOf_spec] at hv
                omega
              obtain ⟨b', he, hl, hm', hb'⟩ := ih inner hsz t b hm hb hct
              refine ⟨b', he, hl, ?_, hb'⟩
              rw [bmatches_union_nullT]
              exact hm'
          · cases v0 <;> cases b <;> exact absurd hm (by exact fun h => Bool.noConfusion h)
      | null =>
          cases v <;> exact absurd hc (by exact fun h => Bool.noConfusion h)
      | bigDecimal =>
          cases v <;> exact absurd hc (by exact fun h => Bool.noConfusion h)
      | ref rname =>
          cases v <;> exact absurd hc (by exact fun h => Bool.noConfusion h)
      | duration =>
          cases v <;> exact absurd hc (by exact fun h => Bool.noConfusion h)

/-- `append_record_ok_aux` at the natural size bound. -/
theorem append_record_ok (s : AvroSchema) (b : ArrayBuilder) (v : AvroValue)
    (hm : bmatches b s = true) (hb : balanced b = true) (hc : conforms s v = true) :
    ∃ b', append_record b s v = .ok b' ∧ builderLen b' = builderLen b + 1 ∧
      bmatches b' s = true ∧ balanced b' = true :=
  append_record_ok_aux (sizeOf v) v (Nat.le_refl _) s b hm hb hc

/-- Iterating `append_record` over a batch of conforming values: n successful
appends grow the length by n, preserving shape and balance. -/
theorem appendMany_ok (s : AvroSchema) :
    ∀ (vs : List AvroValue) (b : ArrayBuilder),
      bmatches b s = true → balanced b = true → (∀ v ∈ vs, conforms s v = true) →
      ∃ b', appendMany s b vs = .ok b' ∧ builderLen b' = builderLen b + vs.length ∧
        bmatches b' s = true ∧ balanced b' = true
  | [], b, hm, hb, _ => ⟨b, rfl, by simp, hm, hb⟩
  | v :: vs, b, hm, hb, hc => by
      obtain ⟨b1, he, hl, hm1, hb1⟩ := append_record_ok s b v hm hb (hc v (by simp))
      obtain ⟨b', he', hl', hm', hb'⟩ := appendMany_ok s vs b1 hm1 hb1
        (fun v' hv' => hc v' (List.mem_cons_of_mem _ hv'))
      refine ⟨b', ?_, by simp only [List.length_cons]; omega, hm', hb'⟩
      show (append_record b s v >>= fun b₁ => appendMany s b₁ vs) = .ok b'
      rw [he]
      exact he'

/-- Splitting an `Except` bind that produced `ok`. -/
theorem bind_ok {E A B : Type} {x : Except E A} {f : A → Except E B} {r : B}
    (h : x >>= f = .ok r) : ∃ a, x = .ok a ∧ f a = .ok r := by
  cases x with
  | error e => exact Except.noConfusion h
  | ok a => exact ⟨a, rfl, h⟩

/-- `is_optional` characterization: exactly the `[Null, T]` unions. -/
theorem is_optional_eq :
    ∀ (variants : List AvroSchema), is_optional variants = true →
      ∃ t, variants = [.null, t]
  | [], h => by simp [is_optional] at h
  | [v], h => by simp [is_optional] at h
  | [v, w], h => by
      cases v <;> first
        | exact ⟨w, rfl⟩
        | simp [is_optional] at h
  | v :: w :: x :: xs, h => by simp [is_optional] at h

mutual
/-- Builders freshly produced by `create_builder` match their schema, are
balanced, and start at length 0. -/
theorem create_builder_ok (clock : Nat → String) (cap : Nat) :
    ∀ (s : AvroSchema) (t : Nat) (b : ArrayBuilder) (t' : Nat),
      create_builder clock cap s t = .ok (b, t') →
      bmatches b s = true ∧ balanced b = true ∧ builderLen b = 0
  | .null, t, b, t', h => by
      have h' : (Except.ok (ArrayBuilder.nullB 0, t) :
          Except ConvError (ArrayBuilder × Nat)) = .ok (b, t') := h
      injection h' with h1
      injection h1 with hb ht
      subst hb
      exact ⟨rfl, rfl, rfl⟩
  | .boolean, t, b, t', h => by
      have h' : (Except.ok (ArrayBuilder.booleanB [], t) :
          Except ConvError (ArrayBuilder × Nat)) = .ok (b, t') := h
      injection h' with h1
      injection h1 with hb ht
      subst hb
      exact ⟨rfl, rfl, rfl⟩
  | .int, t, b, t', h => by
      have h' : (Except.ok (ArrayBuilder.int32B [], t) :
          Except ConvError (ArrayBuilder × Nat)) = .ok (b, t') := h
      injection h' with h1
      injection h1 with hb ht
      subst hb
      exact ⟨rfl, rfl, rfl⟩
  | .long, t, b, t', h => by
      have h' : (Except.ok (ArrayBuilder.int64B [], t) :
          Except ConvError (ArrayBuilder × Nat)) = .ok (b, t') := h
      injection h' with h1
      injection h1 with hb ht
      subst hb
      exact ⟨rfl, rfl, rfl⟩
  | .float, t, b, t', h => by
      have h' : (Except.ok (ArrayBuilder.float32B [], t) :
          Except ConvError (ArrayBuilder × Nat)) = .ok (b, t') := h
      injection h' with h1
      injection h1 with hb ht
      subst hb
      exact ⟨rfl, rfl, rfl⟩
  | .double, t, b, t', h => by
      have h' : (Except.ok (ArrayBuilder.float64B [], t) :
          Except ConvError (ArrayBuilder × Nat)) = .ok (b, t') := h
      injection h' with h1
      injection h1 with hb ht
      subst hb
      exact ⟨rfl, rfl, rfl⟩
  | .decimal p sc, t, b, t', h => by
      have h' : (Except.ok (ArrayBuilder.decimal128B (u8cast p) (i8cast sc) [], t) :
          Except ConvError (ArrayBuilder × Nat)) = .ok (b, t') := h
      injection h' with h1
      injection h1 with hb ht
      subst hb
      exact ⟨rfl, rfl, rfl⟩
  | .date, t, b, t', h => by
      have h' : (Except.ok (ArrayBuilder.date32B [], t) :
          Except ConvError (ArrayBuilder × Nat)) = .ok (b, t') := h
      injection h' with h1
      injection h1 with hb ht
      subst hb
      exact ⟨rfl, rfl, rfl⟩
  | .timeMillis, t, b, t', h => by
      have h' : (Except.ok (ArrayBuilder.time32msB [], t) :
          Except ConvError (ArrayBuilder × Nat)) = .ok (b, t') := h
      injection h' with h1
      injection h1 with hb ht
      subst hb
      exact ⟨rfl, rfl, rfl⟩
  | .timeMicros, t, b, t', h => by
      have h' : (Except.ok (ArrayBuilder.time64usB [], t) :
          Except ConvError (ArrayBuilder × Nat)) = .ok (b, t') := h
      injection h' with h1
      injection h1 with hb ht
      subst hb
      exact ⟨rfl, rfl, rfl⟩
  | .timestampMillis, t, b, t', h => by
      have h' : (Except.ok (ArrayBuilder.timestampMsB none [], t) :
          Except ConvError (ArrayBuilder × Nat)) = .ok (b, t') := h
      injection h' with h1
      injection h1 with hb ht
      subst hb
      exact ⟨rfl, rfl, rfl⟩
  | .timestampMicros, t, b, t', h => by
      have h' : (Except.ok (ArrayBuilder.timestampUsB none [], t) :
          Except ConvError (ArrayBuilder × Nat)) = .ok (b, t') := h
      injection h' with h1
      injection h1 with hb ht
      subst hb
      exact ⟨rfl, rfl, rfl⟩
  | .timestampNanos, t, b, t', h => by
      have h' : (Except.ok (ArrayBuilder.timestampNsB none [], t) :
          Except ConvError (ArrayBuilder × Nat)) = .ok (b, t') := h
      injection h' with h1
      injection h1 with hb ht
      subst hb
      exact ⟨rfl, rfl, rfl⟩
  | .localTimestampMillis, t, b, t', h => by
      have h' : (Except.ok (ArrayBuilder.timestampMsB (some (clock t)) [], t + 1) :
          Except ConvError (ArrayBuilder × Nat)) = .ok (b, t') := h
      injection h' with h1
      injection h1 with hb ht
      subst hb
      exact ⟨rfl, rfl, rfl⟩
  | .localTimestampMicros, t, b, t', h => by
      have h' : (Except.ok (ArrayBuilder.timestampUsB (some (clock t)) [], t + 1) :
          Except ConvError (ArrayBuilder × Nat)) = .ok (b, t') := h
      injection h' with h1
      injection h1 with hb ht
      subst hb
      exact ⟨rfl, rfl, rfl⟩
  | .localTimestampNanos, t, b, t', h => by
      have h' : (Except.ok (ArrayBuilder.timestampNsB (some (clock t)) [], t + 1) :
          Except ConvError (ArrayBuilder × Nat)) = .ok (b, t') := h
      injection h' with h1
      injection h1 with hb ht
      subst hb
      exact ⟨rfl, rfl, rfl⟩
  | .bytes, t, b, t', h => by
      have h' : (Except.ok (ArrayBuilder.binaryB [], t) :
          Except ConvError (ArrayBuilder × Nat)) = .ok (b, t') := h
      injection h' with h1
      injection h1 with hb ht
      subst hb
      exact ⟨rfl, rfl, rfl⟩
  | .fixed fsize, t, b, t', h => by
      have h' : (Except.ok (ArrayBuilder.fixedSizeBinaryB fsize [], t) :
          Except ConvError (ArrayBuilder × Nat)) = .ok (b, t') := h
      injection h' with h1
      injection h1 with hb ht
      subst hb
      exact ⟨beq_self_eq_true _, rfl, rfl⟩
  | .string, t, b, t', h => by
      have h' : (Except.ok (ArrayBuilder.stringB [], t) :
          Except ConvError (ArrayBuilder × Nat)) = .ok (b, t') := h
      injection h' with h1
      injection h1 with hb ht
      subst hb
      exact ⟨rfl, rfl, rfl⟩
  | .enumS syms, t, b, t', h => by
      have h' : (Except.ok (ArrayBuilder.stringB [], t) :
          Except ConvError (ArrayBuilder × Nat)) = .ok (b, t') := h
      injection h' with h1
      injection h1 with hb ht
      subst hb
      exact ⟨rfl, rfl, rfl⟩
  | .uuid, t, b, t', h => by
      have h' : (Except.ok (ArrayBuilder.fixedSizeBinaryB 16 [], t) :
          Except ConvError (ArrayBuilder × Nat)) = .ok (b, t') := h
      injection h' with h1
      injection h1 with hb ht
      subst hb
      exact ⟨rfl, rfl, rfl⟩
  | .bigDecimal, t, b, t', h => Except.noConfusion h
  | .ref nm, t, b, t', h => Except.noConfusion h
  | .duration, t, b, t', h => Except.noConfusion h
  | .array items, t, b, t', h => by
      have h' : (create_builder clock cap items t >>= fun r =>
          Except.ok (ArrayBuilder.listB [] r.1, r.2)) = .ok (b, t') := h
      obtain ⟨⟨vb, t₂⟩, hvb, hok⟩ := bind_ok h'
      have hok' : (Except.ok (ArrayBuilder.listB [] vb, t₂) :
          Except ConvError (ArrayBuilder × Nat)) = .ok (b, t') := hok
      injection hok' with h1
      injection h1 with hb ht
      subst hb
      obtain ⟨hm, hbal, hlen⟩ := create_builder_ok clock cap items t vb t₂ hvb
      exact ⟨hm, hbal, rfl⟩
  | .map types, t, b, t', h => by
      have h' : (create_builder clock cap types t >>= fun r =>
          Except.ok (ArrayBuilder.mapB [] [] r.1, r.2)) = .ok (b, t') := h
      obtain ⟨⟨vb, t₂⟩, hvb, hok⟩ := bind_ok h'
      have hok' : (Except.ok (ArrayBuilder.mapB [] [] vb, t₂) :
          Except ConvError (ArrayBuilder × Nat)) = .ok (b, t') := hok
      injection hok' with h1
      injection h1 with hb ht
      subst hb
      obtain ⟨hm, hbal, hlen⟩ := create_builder_ok clock cap types t vb t₂ hvb
      refine ⟨hm, ?_, rfl⟩
      show ((List.length ([] : List (Option String)) == builderLen vb) && balanced vb) = true
      rw [Bool.and_eq_true, beq_iff_eq]
      exact ⟨hlen.symm, hbal⟩
  | .record nm fields, t, b, t', h => by
      have h' : (struct_builder_fields clock cap fields t >>= fun r =>
          Except.ok (ArrayBuilder.structB r.1 [] r.2.1, r.2.2)) = .ok (b, t') := h
      obtain ⟨⟨fs, bs, t₂⟩, hsf, hok⟩ := bind_ok h'
      have hok' : (Except.ok (ArrayBuilder.structB fs [] bs, t₂) :
          Except ConvError (ArrayBuilder × Nat)) = .ok (b, t') := hok
      injection hok' with h1
      injection h1 with hb ht
      subst hb
      obtain ⟨hmc, hbc⟩ := struct_builder_fields_ok clock cap fields t fs bs t₂ hsf
      exact ⟨hmc, hbc, rfl⟩
  | .union variants, t, b, t', h => by
      rcases variants with _ | ⟨v0, _ | ⟨v1, _ | ⟨v2, rest⟩⟩⟩
      · exact Except.noConfusion h
      · exact Except.noConfusion h
      · cases v0 <;> try exact Except.noConfusion h
        case null =>
          have h' : create_builder clock cap v1 t = .ok (b, t') := h
          obtain ⟨h1, h2, h3⟩ := create_builder_ok clock cap v1 t b t' h'
          refine ⟨?_, h2, h3⟩
          rw [bmatches_union_nullT]
          exact h1
      · exact Except.noConfusion h

/-- The `struct_builder` loop produces children that match the record fields
and are balanced at length 0. -/
theorem struct_builder_fields_ok (clock : Nat → String) (cap : Nat) :
    ∀ (fields : List (String × AvroSchema)) (t : Nat) (fs : List AField)
      (bs : List ArrayBuilder) (t' : Nat),
      struct_builder_fields clock cap fields t = .ok (fs, bs, t') →
      bmatchesChildren bs fields = true ∧ balancedChildren 0 bs = true
  | [], t, fs, bs, t', h => by
      have h' : (Except.ok (([] : List AField), ([] : List ArrayBuilder), t) :
          Except ConvError (List AField × List ArrayBuilder × Nat)) = .ok (fs, bs, t') := h
      injection h' with h1
      injection h1 with hfs h2
      injection h2 with hbs ht
      subst hfs
      subst hbs
      exact ⟨rfl, rfl⟩
  | (nm, s) :: rest, t, fs, bs, t', h => by
      have h' : (convert_to_datatype clock s t >>= fun r1 =>
          create_builder clock cap s r1.2 >>= fun r2 =>
          struct_builder_fields clock cap rest r2.2 >>= fun r3 =>
          Except.ok (AField.mk nm r1.1 (is_nullable s) :: r3.1, r2.1 :: r3.2.1, r3.2.2)) =
          .ok (fs, bs, t') := h
      obtain ⟨⟨dt, t₁⟩, hdt, h2⟩ := bind_ok h'
      obtain ⟨⟨b₀, t₂⟩, hcb, h3⟩ := bind_ok h2
      obtain ⟨⟨fs₃, bs₃, t₃⟩, hsf, hok⟩ := bind_ok h3
      have hok' : (Except.ok (AField.mk nm dt (is_nullable s) :: fs₃, b₀ :: bs₃, t₃) :
          Except ConvError (List AField × List ArrayBuilder × Nat)) = .ok (fs, bs, t') := hok
      injection hok' with h1
      injection h1 with hfs h4
      injection h4 with hbs ht
      subst hfs
      subst hbs
      obtain ⟨hm0, hb0, hl0⟩ := create_builder_ok clock cap s t₁ b₀ t₂ hcb
      obtain ⟨hmc, hbc⟩ := struct_builder_fields_ok clock cap rest t₂ fs₃ bs₃ t₃ hsf
      constructor
      · show (bmatches b₀ s && bmatchesChildren bs₃ rest) = true
        rw [Bool.and_eq_true]
        exact ⟨hm0, hmc⟩
      · show ((builderLen b₀ == 0) && balanced b₀ && balancedChildren 0 bs₃) = true
        simp only [Bool.and_eq_true, beq_iff_eq]
        exact ⟨⟨hl0, hb0⟩, hbc⟩
end

mutual
/-- A balanced builder of length n is row-aligned at n. -/
theorem rowAligned_of_balanced :
    ∀ (b : ArrayBuilder), balanced b = true → rowAligned (builderLen b) b = true
  | .nullB _, _ => beq_self_eq_true _
  | .booleanB _, _ => beq_self_eq_true _
  | .int32B _, _ => beq_self_eq_true _
  | .int64B _, _ => beq_self_eq_true _
  | .float32B _, _ => beq_self_eq_true _
  | .float64B _, _ => beq_self_eq_true _
  | .decimal128B _ _ _, _ => beq_self_eq_true _
  | .date32B _, _ => beq_self_eq_true _
  | .time32msB _, _ => beq_self_eq_true _
  | .time64usB _, _ => beq_self_eq_true _
  | .timestampMsB _ _, _ => beq_self_eq_true _
  | .timestampUsB _ _, _ => beq_self_eq_true _
  | .timestampNsB _ _, _ => beq_self_eq_true _
  | .stringB _, _ => beq_self_eq_true _
  | .binaryB _, _ => beq_self_eq_true _
  | .fixedSizeBinaryB _ _, _ => beq_self_eq_true _
  | .listB validity values, _ => beq_self_eq_true _
  | .mapB validity keys values, _ => beq_self_eq_true _
  | .structB fsm validity children, h => by
      show ((validity.length == validity.length) &&
        rowAlignedChildren validity.length children) = true
      rw [Bool.and_eq_true]
      exact ⟨beq_self_eq_true _, rowAlignedChildren_of_balanced validity.length children h⟩

theorem rowAlignedChildren_of_balanced :
    ∀ (n : Nat) (cs : List ArrayBuilder),
      balancedChildren n cs = true → rowAlignedChildren n cs = true
  | _, [], _ => rfl
  | n, c :: cs, h => by
      have h' : ((builderLen c == n) && balanced c && balancedChildren n cs) = true := h
      simp only [Bool.and_eq_true, beq_iff_eq] at h'
      show (rowAligned n c && rowAlignedChildren n cs) = true
      rw [Bool.and_eq_true]
      refine ⟨?_, rowAlignedChildren_of_balanced n cs h'.2⟩
      have hra := rowAligned_of_balanced c h'.1.2
      rw [h'.1.1] at hra
      exact hra
end

mutual
/-- A balanced builder satisfies the struct-children length equalities
everywhere in the tree. -/
theorem structChildrenEq_of_balanced :
    ∀ (b : ArrayBuilder), balanced b = true → structChildrenEq b = true
  | .nullB _, _ => rfl
  | .booleanB _, _ => rfl
  | .int32B _, _ => rfl
  | .int64B _, _ => rfl
  | .float32B _, _ => rfl
  | .float64B _, _ => rfl
  | .decimal128B _ _ _, _ => rfl
  | .date32B _, _ => rfl
  | .time32msB _, _ => rfl
  | .time64usB _, _ => rfl
  | .timestampMsB _ _, _ => rfl
  | .timestampUsB _ _, _ => rfl
  | .timestampNsB _ _, _ => rfl
  | .stringB _, _ => rfl
  | .binaryB _, _ => rfl
  | .fixedSizeBinaryB _ _, _ => rfl
  | .listB validity values, h => structChildrenEq_of_balanced values h
  | .mapB validity keys values, h => by
      have h' : ((keys.length == builderLen values) && balanced values) = true := h
      rw [Bool.and_eq_true] at h'
      exact structChildrenEq_of_balanced values h'.2
  | .structB fsm validity children, h =>
      structChildrenEqList_of_balanced validity.length children h

theorem structChildrenEqList_of_balanced :
    ∀ (n : Nat) (cs : List ArrayBuilder),
      balancedChildren n cs = true → structChildrenEqList n cs = true
  | _, [], _ => rfl
  | n, c :: cs, h => by
      have h' : ((builderLen c == n) && balanced c && balancedChildren n cs) = true := h
      simp only [Bool.and_eq_true] at h'
      show ((builderLen c == n) && structChildrenEq c && structChildrenEqList n cs) = true
      simp only [Bool.and_eq_true]
      exact ⟨⟨h'.1.1, structChildrenEq_of_balanced c h'.1.2⟩,
        structChildrenEqList_of_balanced n cs h'.2⟩
end

/-- The fields produced by `convert_record_fields` align positionally with
the record fields, carrying `is_nullable` of each declared schema. -/
theorem convert_record_fields_spec (clock : Nat → String) :
    ∀ (fields : List (String × AvroSchema)) (t : Nat) (fs : List AField) (t' : Nat),
      convert_record_fields clock fields t = .ok (fs, t') →
      fs.length = fields.length ∧
      ∀ (k : Nat) (f : AField), fs[k]? = some f →
        ∃ nm sk, fields[k]? = some (nm, sk) ∧
          f.name = nm ∧ f.nullable = is_nullable sk
  | [], t, fs, t', h => by
      have h' : (Except.ok (([] : List AField), t) :
          Except ConvError (List AField × Nat)) = .ok (fs, t') := h
      injection h' with h1
      injection h1 with hfs ht
      subst hfs
      exact ⟨rfl, fun k f hf => by simp at hf⟩
  | (nm, s) :: rest, t, fs, t', h => by
      have h' : (convert_to_datatype clock s t >>= fun r1 =>
          convert_record_fields clock rest r1.2 >>= fun r2 =>
          Except.ok (AField.mk nm r1.1 (is_nullable s) :: r2.1, r2.2)) = .ok (fs, t') := h
      obtain ⟨⟨dt, t₁⟩, hdt, h2⟩ := bind_ok h'
      obtain ⟨⟨fs₂, t₂⟩, hcf, hok⟩ := bind_ok h2
      have hok' : (Except.ok (AField.mk nm dt (is_nullable s) :: fs₂, t₂) :
          Except ConvError (List AField × Nat)) = .ok (fs, t') := hok
      injection hok' with h1
      injection h1 with hfs ht
      subst hfs
      obtain ⟨hlen, hget⟩ := convert_record_fields_spec clock rest t₁ fs₂ t₂ hcf
      refine ⟨by simp [hlen], ?_⟩
      intro k f hf
      match k with
      | 0 =>
          simp only [List.getElem?_cons_zero, Option.some.injEq] at hf
          subst hf
          exact ⟨nm, s, by simp, rfl, rfl⟩
      | k + 1 =>
          simp only [List.getElem?_cons_succ] at hf ⊢
          exact hget k f hf

mutual
/-- Under a constant host clock, every tz string inside a data type produced
by `convert_to_datatype` is that constant. -/
theorem convert_to_datatype_tz (clock : Nat → String) (c : String)
    (hconst : ∀ n, clock n = c) :
    ∀ (s : AvroSchema) (t : Nat) (dt : DataType) (t' : Nat),
      convert_to_datatype clock s t = .ok (dt, t') →
      ∀ tz ∈ dataTypeTzs dt, tz = c
  | .null, t, dt, t', h => by
      have h' : (Except.ok (DataType.nullT, t) :
          Except ConvError (DataType × Nat)) = .ok (dt, t') := h
      injection h' with h1
      injection h1 with hdt ht
      subst hdt
      intro tz htz
      exact absurd htz (List.not_mem_nil _)
  | .boolean, t, dt, t', h => by
      have h' : (Except.ok (DataType.booleanT, t) :
          Except ConvError (DataType × Nat)) = .ok (dt, t') := h
      injection h' with h1
      injection h1 with hdt ht
      subst hdt
      intro tz htz
      exact absurd htz (List.not_mem_nil _)
  | .int, t, dt, t', h => by
      have h' : (Except.ok (DataType.int32, t) :
          Except ConvError (DataType × Nat)) = .ok (dt, t') := h
      injection h' with h1
      injection h1 with hdt ht
      subst hdt
      intro tz htz
      exact absurd htz (List.not_mem_nil _)
  | .long, t, dt, t', h => by
      have h' : (Except.ok (DataType.int64, t) :
          Except ConvError (DataType × Nat)) = .ok (dt, t') := h
      injection h' with h1
      injection h1 with hdt ht
      subst hdt
      intro tz htz
      exact absurd htz (List.not_mem_nil _)
  | .float, t, dt, t', h => by
      have h' : (Except.ok (DataType.float32, t) :
          Except ConvError (DataType × Nat)) = .ok (dt, t') := h
      injection h' with h1
      injection h1 with hdt ht
      subst hdt
      intro tz htz
      exact absurd htz (List.not_mem_nil _)
  | .double, t, dt, t', h => by
      have h' : (Except.ok (DataType.float64, t) :
          Except ConvError (DataType × Nat)) = .ok (dt, t') := h
      injection h' with h1
      injection h1 with hdt ht
      subst hdt
      intro tz htz
      exact absurd htz (List.not_mem_nil _)
  | .bytes, t, dt, t', h => by
      have h' : (Except.ok (DataType.binary, t) :
          Except ConvError (DataType × Nat)) = .ok (dt, t') := h
      injection h' with h1
      injection h1 with hdt ht
      subst hdt
      intro tz htz
      exact absurd htz (List.not_mem_nil _)
  | .string, t, dt, t', h => by
      have h' : (Except.ok (DataType.utf8, t) :
          Except ConvError (DataType × Nat)) = .ok (dt, t') := h
      injection h' with h1
      injection h1 with hdt ht
      subst hdt
      intro tz htz
      exact absurd htz (List.not_mem_nil _)
  | .uuid, t, dt, t', h => by
      have h' : (Except.ok (DataType.fixedSizeBinary 16, t) :
          Except ConvError (DataType × Nat)) = .ok (dt, t') := h
      injection h' with h1
      injection h1 with hdt ht
      subst hdt
      intro tz htz
      exact absurd htz (List.not_mem_nil _)
  | .timeMillis, t, dt, t', h => by
      have h' : (Except.ok (DataType.time32ms, t) :
          Except ConvError (DataType × Nat)) = .ok (dt, t') := h
      injection h' with h1
      injection h1 with hdt ht
      subst hdt
      intro tz htz
      exact absurd htz (List.not_mem_nil _)
  | .timeMicros, t, dt, t', h => by
      have h' : (Except.ok (DataType.time64us, t) :
          Except ConvError (DataType × Nat)) = .ok (dt, t') := h
      injection h' with h1
      injection h1 with hdt ht
      subst hdt
      intro tz htz
      exact absurd htz (List.not_mem_nil _)
  | .timestampMillis, t, dt, t', h => by
      have h' : (Except.ok (DataType.timestamp .millisecond none, t) :
          Except ConvError (DataType × Nat)) = .ok (dt, t') := h
      injection h' with h1
      injection h1 with hdt ht
      subst hdt
      intro tz htz
      exact absurd htz (List.not_mem_nil _)
  | .timestampMicros, t, dt, t', h => by
      have h' : (Except.ok (DataType.timestamp .microsecond none, t) :
          Except ConvError (DataType × Nat)) = .ok (dt, t') := h
      injection h' with h1
      injection h1 with hdt ht
      subst hdt
      intro tz htz
      exact absurd htz (List.not_mem_nil _)
  | .timestampNanos, t, dt, t', h => by
      have h' : (Except.ok (DataType.timestamp .nanosecond none, t) :
          Except ConvError (DataType × Nat)) = .ok (dt, t') := h
      injection h' with h1
      injection h1 with hdt ht
      subst hdt
      intro tz htz
      exact absurd htz (List.not_mem_nil _)
  | .date, t, dt, t', h => by
      have h' : (Except.ok (DataType.date32, t) :
          Except ConvError (DataType × Nat)) = .ok (dt, t') := h
      injection h' with h1
      injection h1 with hdt ht
      subst hdt
      intro tz htz
      exact absurd htz (List.not_mem_nil _)
  | .enumS syms, t, dt, t', h => by
      have h' : (Except.ok (DataType.utf8, t) :
          Except ConvError (DataType × Nat)) = .ok (dt, t') := h
      injection h' with h1
      injection h1 with hdt ht
      subst hdt
      intro tz htz
      exact absurd htz (List.not_mem_nil _)
  | .decimal p sc, t, dt, t', h => by
      have h' : (Except.ok (DataType.decimal128 (u8cast p) (i8cast sc), t) :
          Except ConvError (DataType × Nat)) = .ok (dt, t') := h
      injection h' with h1
      injection h1 with hdt ht
      subst hdt
      intro tz htz
      exact absurd htz (List.not_mem_nil _)
  | .fixed fsize, t, dt, t', h => by
      have h' : (Except.ok (DataType.fixedSizeBinary (fsize : Int), t) :
          Except ConvError (DataType × Nat)) = .ok (dt, t') := h
      injection h' with h1
      injection h1 with hdt ht
      subst hdt
      intro tz htz
      exact absurd htz (List.not_mem_nil _)
  | .bigDecimal, t, dt, t', h => by
      have h' : (Except.ok (DataType.binary, t) :
          Except ConvError (DataType × Nat)) = .ok (dt, t') := h
      injection h' with h1
      injection h1 with hdt ht
      subst hdt
      intro tz htz
      exact absurd htz (List.not_mem_nil _)
  | .localTimestampMillis, t, dt, t', h => by
      have h' : (Except.ok (DataType.timestamp .millisecond (some (clock t)), t + 1) :
          Except ConvError (DataType × Nat)) = .ok (dt, t') := h
      injection h' with h1
      injection h1 with hdt ht
      subst hdt
      intro tz htz
      have htz' : tz ∈ [clock t] := htz
      rw [List.mem_singleton] at htz'
      rw [htz']
      exact hconst t
  | .localTimestampMicros, t, dt, t', h => by
      have h' : (Except.ok (DataType.timestamp .microsecond (some (clock t)), t + 1) :
          Except ConvError (DataType × Nat)) = .ok (dt, t') := h
      injection h' with h1
      injection h1 with hdt ht
      subst hdt
      intro tz htz
      have htz' : tz ∈ [clock t] := htz
      rw [List.mem_singleton] at htz'
      rw [htz']
      exact hconst t
  | .localTimestampNanos, t, dt, t', h => by
      have h' : (Except.ok (DataType.timestamp .nanosecond (some (clock t)), t + 1) :
          Except ConvError (DataType × Nat)) = .ok (dt, t') := h
      injection h' with h1
      injection h1 with hdt ht
      subst hdt
      intro tz htz
      have htz' : tz ∈ [clock t] := htz
      rw [List.mem_singleton] at htz'
      rw [htz']
      exact hconst t
  | .ref nm, t, dt, t', h => Except.noConfusion h
  | .duration, t, dt, t', h => Except.noConfusion h
  | .array items, t, dt, t', h => by
      have h' : (convert_to_datatype clock items t >>= fun r =>
          Except.ok (DataType.listT (AField.mk "item" r.1 (is_nullable items)), r.2)) =
          .ok (dt, t') := h
      obtain ⟨⟨dt₀, t₁⟩, hdt, hok⟩ := bind_ok h'
      have hok' : (Except.ok (DataType.listT (AField.mk "item" dt₀ (is_nullable items)), t₁) :
          Except ConvError (DataType × Nat)) = .ok (dt, t') := hok
      injection hok' with h1
      injection h1 with hdt2 ht
      subst hdt2
      intro tz htz
      exact convert_to_datatype_tz clock c hconst items t dt₀ t₁ hdt tz htz
  | .map types, t, dt, t', h => by
      have h' : (convert_to_datatype clock types t >>= fun r =>
          Except.ok (DataType.mapT (AField.mk "entries"
            (DataType.structT [AField.mk "keys" DataType.utf8 false,
              AField.mk "values" r.1 (is_nullable types)]) false) false, r.2)) =
          .ok (dt, t') := h
      obtain ⟨⟨dt₀, t₁⟩, hdt, hok⟩ := bind_ok h'
      have hok' : (Except.ok (DataType.mapT (AField.mk "entries"
          (DataType.structT [AField.mk "keys" DataType.utf8 false,
            AField.mk "values" dt₀ (is_nullable types)]) false) false, t₁) :
          Except ConvError (DataType × Nat)) = .ok (dt, t') := hok
      injection hok' with h1
      injection h1 with hdt2 ht
      subst hdt2
      intro tz htz
      have htz' : tz ∈ ([] : List String) ++ (dataTypeTzs dt₀ ++ []) := htz
      rw [List.nil_append, List.append_nil] at htz'
      exact convert_to_datatype_tz clock c hconst types t dt₀ t₁ hdt tz htz'
  | .record nm fields, t, dt, t', h => by
      have h' : (convert_record_fields clock fields t >>= fun r =>
          Except.ok (DataType.structT r.1, r.2)) = .ok (dt, t') := h
      obtain ⟨⟨fs, t₁⟩, hcf, hok⟩ := bind_ok h'
      have hok' : (Except.ok (DataType.structT fs, t₁) :
          Except ConvError (DataType × Nat)) = .ok (dt, t') := hok
      injection hok' with h1
      injection h1 with hdt2 ht
      subst hdt2
      intro tz htz
      exact convert_record_fields_tz clock c hconst fields t fs t₁ hcf tz htz
  | .union variants, t, dt, t', h => by
      rcases variants with _ | ⟨v0, _ | ⟨v1, _ | ⟨v2, rest⟩⟩⟩
      · exact Except.noConfusion h
      · exact Except.noConfusion h
      · cases v0 <;> try exact Except.noConfusion h
        case null =>
          have h' : convert_to_datatype clock v1 t = .ok (dt, t') := h
          exact convert_to_datatype_tz clock c hconst v1 t dt t' h'
      · exact Except.noConfusion h

/-- Under a constant host clock, every tz string inside the field metadata of
a translated record is that constant. -/
theorem convert_record_fields_tz (clock : Nat → String) (c : String)
    (hconst : ∀ n, clock n = c) :
    ∀ (fields : List (String × AvroSchema)) (t : Nat) (fs : List AField) (t' : Nat),
      convert_record_fields clock fields t = .ok (fs, t') →
      ∀ tz ∈ afieldsTzs fs, tz = c
  | [], t, fs, t', h => by
      have h' : (Except.ok (([] : List AField), t) :
          Except ConvError (List AField × Nat)) = .ok (fs, t') := h
      injection h' with h1
      injection h1 with hfs ht
      subst hfs
      intro tz htz
      exact absurd htz (List.not_mem_nil _)
  | (nm, s) :: rest, t, fs, t', h => by
      have h' : (convert_to_datatype clock s t >>= fun r1 =>
          convert_record_fields clock rest r1.2 >>= fun r2 =>
          Except.ok (AField.mk nm r1.1 (is_nullable s) :: r2.1, r2.2)) = .ok (fs, t') := h
      obtain ⟨⟨dt, t₁⟩, hdt, h2⟩ := bind_ok h'
      obtain ⟨⟨fs₂, t₂⟩, hcf, hok⟩ := bind_ok h2
      have hok' : (Except.ok (AField.mk nm dt (is_nullable s) :: fs₂, t₂) :
          Except ConvError (List AField × Nat)) = .ok (fs, t') := hok
      injection hok' with h1
      injection h1 with hfs ht
      subst hfs
      intro tz htz
      have htz' : tz ∈ dataTypeTzs dt ++ afieldsTzs fs₂ := htz
      rcases List.mem_append.mp htz' with hmem | hmem
      · exact convert_to_datatype_tz clock c hconst s t dt t₁ hdt tz hmem
      · exact convert_record_fields_tz clock c hconst rest t₁ fs₂ t₂ hcf tz hmem
end

mutual
/-- Under a constant host clock, every tz string carried by the builders (and
the struct field metadata) produced by `create_builder` is that constant. -/
theorem create_builder_tz (clock : Nat → String) (cap : Nat) (c : String)
    (hconst : ∀ n, clock n = c) :
    ∀ (s : AvroSchema) (t : Nat) (b : ArrayBuilder) (t' : Nat),
      create_builder clock cap s t = .ok (b, t') →
      ∀ tz ∈ builderTzs b, tz = c
  | .null, t, b, t', h => by
      have h' : (Except.ok (ArrayBuilder.nullB 0, t) :
          Except ConvError (ArrayBuilder × Nat)) = .ok (b, t') := h
      injection h' with h1
      injection h1 with hb ht
      subst hb
      intro tz htz
      exact absurd htz (List.not_mem_nil _)
  | .boolean, t, b, t', h => by
      have h' : (Except.ok (ArrayBuilder.booleanB [], t) :
          Except ConvError (ArrayBuilder × Nat)) = .ok (b, t') := h
      injection h' with h1
      injection h1 with hb ht
      subst hb
      intro tz htz
      exact absurd htz (List.not_mem_nil _)
  | .int, t, b, t', h => by
      have h' : (Except.ok (ArrayBuilder.int32B [], t) :
          Except ConvError (ArrayBuilder × Nat)) = .ok (b, t') := h
      injection h' with h1
      injection h1 with hb ht
      subst hb
      intro tz htz
      exact absurd htz (List.not_mem_nil _)
  | .long, t, b, t', h => by
      have h' : (Except.ok (ArrayBuilder.int64B [], t) :
          Except ConvError (ArrayBuilder × Nat)) = .ok (b, t') := h
      injection h' with h1
      injection h1 with hb ht
      subst hb
      intro tz htz
      exact absurd htz (List.not_mem_nil _)
  | .float, t, b, t', h => by
      have h' : (Except.ok (ArrayBuilder.float32B [], t) :
          Except ConvError (ArrayBuilder × Nat)) = .ok (b, t') := h
      injection h' with h1
      injection h1 with hb ht
      subst hb
      intro tz htz
      exact absurd htz (List.not_mem_nil _)
  | .double, t, b, t', h => by
      have h' : (Except.ok (ArrayBuilder.float64B [], t) :
          Except ConvError (ArrayBuilder × Nat)) = .ok (b, t') := h
      injection h' with h1
      injection h1 with hb ht
      subst hb
      intro tz htz
      exact absurd htz (List.not_mem_nil _)
  | .decimal p sc, t, b, t', h => by
      have h' : (Except.ok (ArrayBuilder.decimal128B (u8cast p) (i8cast sc) [], t) :
          Except ConvError (ArrayBuilder × Nat)) = .ok (b, t') := h
      injection h' with h1
      injection h1 with hb ht
      subst hb
      intro tz htz
      exact absurd htz (List.not_mem_nil _)
  | .date, t, b, t', h => by
      have h' : (Except.ok (ArrayBuilder.date32B [], t) :
          Except ConvError (ArrayBuilder × Nat)) = .ok (b, t') := h
      injection h' with h1
      injection h1 with hb ht
      subst hb
      intro tz htz
      exact absurd htz (List.not_mem_nil _)
  | .timeMillis, t, b, t', h => by
      have h' : (Except.ok (ArrayBuilder.time32msB [], t) :
          Except ConvError (ArrayBuilder × Nat)) = .ok (b, t') := h
      injection h' with h1
      injection h1 with hb ht
      subst hb
      intro tz htz
      exact absurd htz (List.not_mem_nil _)
  | .timeMicros, t, b, t', h => by
      have h' : (Except.ok (ArrayBuilder.time64usB [], t) :
          Except ConvError (ArrayBuilder × Nat)) = .ok (b, t') := h
      injection h' with h1
      injection h1 with hb ht
      subst hb
      intro tz htz
      exact absurd htz (List.not_mem_nil _)
  | .timestampMillis, t, b, t', h => by
      have h' : (Except.ok (ArrayBuilder.timestampMsB none [], t) :
          Except ConvError (ArrayBuilder × Nat)) = .ok (b, t') := h
      injection h' with h1
      injection h1 with hb ht
      subst hb
      intro tz htz
      exact absurd htz (List.not_mem_nil _)
  | .timestampMicros, t, b, t', h => by
      have h' : (Except.ok (ArrayBuilder.timestampUsB none [], t) :
          Except ConvError (ArrayBuilder × Nat)) = .ok (b, t') := h
      injection h' with h1
      injection h1 with hb ht
      subst hb
      intro tz htz
      exact absurd htz (List.not_mem_nil _)
  | .timestampNanos, t, b, t', h => by
      have h' : (Except.ok (ArrayBuilder.timestampNsB none [], t) :
          Except ConvError (ArrayBuilder × Nat)) = .ok (b, t') := h
      injection h' with h1
      injection h1 with hb ht
      subst hb
      intro tz htz
      exact absurd htz (List.not_mem_nil _)
  | .bytes, t, b, t', h => by
      have h' : (Except.ok (ArrayBuilder.binaryB [], t) :
          Except ConvError (ArrayBuilder × Nat)) = .ok (b, t') := h
      injection h' with h1
      injection h1 with hb ht
      subst hb
      intro tz htz
      exact absurd htz (List.not_mem_nil _)
  | .fixed fsize, t, b, t', h => by
      have h' : (Except.ok (ArrayBuilder.fixedSizeBinaryB fsize [], t) :
          Except ConvError (ArrayBuilder × Nat)) = .ok (b, t') := h
      injection h' with h1
      injection h1 with hb ht
      subst hb
      intro tz htz
      exact absurd htz (List.not_mem_nil _)
  | .string, t, b, t', h => by
      have h' : (Except.ok (ArrayBuilder.stringB [], t) :
          Except ConvError (ArrayBuilder × Nat)) = .ok (b, t') := h
      injection h' with h1
      injection h1 with hb ht
      subst hb
      intro tz htz
      exact absurd htz (List.not_mem_nil _)
  | .enumS syms, t, b, t', h => by
      have h' : (Except.ok (ArrayBuilder.stringB [], t) :
          Except ConvError (ArrayBuilder × Nat)) = .ok (b, t') := h
      injection h' with h1
      injection h1 with hb ht
      subst hb
      intro tz htz
      exact absurd htz (List.not_mem_nil _)
  | .uuid, t, b, t', h => by
      have h' : (Except.ok (ArrayBuilder.fixedSizeBinaryB 16 [], t) :
          Except ConvError (ArrayBuilder × Nat)) = .ok (b, t') := h
      injection h' with h1
      injection h1 with hb ht
      subst hb
      intro tz htz
      exact absurd htz (List.not_mem_nil _)
  | .localTimestampMillis, t, b, t', h => by
      have h' : (Except.ok (ArrayBuilder.timestampMsB (some (clock t)) [], t + 1) :
          Except ConvError (ArrayBuilder × Nat)) = .ok (b, t') := h
      injection h' with h1
      injection h1 with hb ht
      subst hb
      intro tz htz
      have htz' : tz ∈ [clock t] := htz
      rw [List.mem_singleton] at htz'
      rw [htz']
      exact hconst t
  | .localTimestampMicros, t, b, t', h => by
      have h' : (Except.ok (ArrayBuilder.timestampUsB (some (clock t)) [], t + 1) :
          Except ConvError (ArrayBuilder × Nat)) = .ok (b, t') := h
      injection h' with h1
      injection h1 with hb ht
      subst hb
      intro tz htz
      have htz' : tz ∈ [clock t] := htz
      rw [List.mem_singleton] at htz'
      rw [htz']
      exact hconst t
  | .localTimestampNanos, t, b, t', h => by
      have h' : (Except.ok (ArrayBuilder.timestampNsB (some (clock t)) [], t + 1) :
          Except ConvError (ArrayBuilder × Nat)) = .ok (b, t') := h
      injection h' with h1
      injection h1 with hb ht
      subst hb
      intro tz htz
      have htz' : tz ∈ [clock t] := htz
      rw [List.mem_singleton] at htz'
      rw [htz']
      exact hconst t
  | .bigDecimal, t, b, t', h => Except.noConfusion h
  | .ref nm, t, b, t', h => Except.noConfusion h
  | .duration, t, b, t', h => Except.noConfusion h
  | .array items, t, b, t', h => by
      have h' : (create_builder clock cap items t >>= fun r =>
          Except.ok (ArrayBuilder.listB [] r.1, r.2)) = .ok (b, t') := h
      obtain ⟨⟨vb, t₁⟩, hvb, hok⟩ := bind_ok h'
      have hok' : (Except.ok (ArrayBuilder.listB [] vb, t₁) :
          Except ConvError (ArrayBuilder × Nat)) = .ok (b, t') := hok
      injection hok' with h1
      injection h1 with hb ht
      subst hb
      intro tz htz
      exact create_builder_tz clock cap c hconst items t vb t₁ hvb tz htz
  | .map types, t, b, t', h => by
      have h' : (create_builder clock cap types t >>= fun r =>
          Except.ok (ArrayBuilder.mapB [] [] r.1, r.2)) = .ok (b, t') := h
      obtain ⟨⟨vb, t₁⟩, hvb, hok⟩ := bind_ok h'
      have hok' : (Except.ok (ArrayBuilder.mapB [] [] vb, t₁) :
          Except ConvError (ArrayBuilder × Nat)) = .ok (b, t') := hok
      injection hok' with h1
      injection h1 with hb ht
      subst hb
      intro tz htz
      exact create_builder_tz clock cap c hconst types t vb t₁ hvb tz htz
  | .record nm fields, t, b, t', h => by
      have h' : (struct_builder_fields clock cap fields t >>= fun r =>
          Except.ok (ArrayBuilder.structB r.1 [] r.2.1, r.2.2)) = .ok (b, t') := h
      obtain ⟨⟨fs, bs, t₁⟩, hsf, hok⟩ := bind_ok h'
      have hok' : (Except.ok (ArrayBuilder.structB fs [] bs, t₁) :
          Except ConvError (ArrayBuilder × Nat)) = .ok (b, t') := hok
      injection hok' with h1
      injection h1 with hb ht
      subst hb
      intro tz htz
      exact struct_builder_fields_tz clock cap c hconst fields t fs bs t₁ hsf tz htz
  | .union variants, t, b, t', h => by
      rcases variants with _ | ⟨v0, _ | ⟨v1, _ | ⟨v2, rest⟩⟩⟩
      · exact Except.noConfusion h
      · exact Except.noConfusion h
      · cases v0 <;> try exact Except.noConfusion h
        case null =>
          have h' : create_builder clock cap v1 t = .ok (b, t') := h
          exact create_builder_tz clock cap c hconst v1 t b t' h'
      · exact Except.noConfusion h

/-- Loop version of `create_builder_tz` for struct children plus their field
metadata. -/
theorem struct_builder_fields_tz (clock : Nat → String) (cap : Nat) (c : String)
    (hconst : ∀ n, clock n = c) :
    ∀ (fields : List (String × AvroSchema)) (t : Nat) (fs : List AField)
      (bs : List ArrayBuilder) (t' : Nat),
      struct_builder_fields clock cap fields t = .ok (fs, bs, t') →
      ∀ tz ∈ afieldsTzs fs ++ builderTzsChildren bs, tz = c
  | [], t, fs, bs, t', h => by
      have h' : (Except.ok (([] : List AField), ([] : List ArrayBuilder), t) :
          Except ConvError (List AField × List ArrayBuilder × Nat)) = .ok (fs, bs, t') := h
      injection h' with h1
      injection h1 with hfs h2
      injection h2 with hbs ht
      subst hfs
      subst hbs
      intro tz htz
      exact absurd htz (List.not_mem_nil _)
  | (nm, s) :: rest, t, fs, bs, t', h => by
      have h' : (convert_to_datatype clock s t >>= fun r1 =>
          create_builder clock cap s r1.2 >>= fun r2 =>
          struct_builder_fields clock cap rest r2.2 >>= fun r3 =>
          Except.ok (AField.mk nm r1.1 (is_nullable s) :: r3.1, r2.1 :: r3.2.1, r3.2.2)) =
          .ok (fs, bs, t') := h
      obtain ⟨⟨dt, t₁⟩, hdt, h2⟩ := bind_ok h'
      obtain ⟨⟨b₀, t₂⟩, hcb, h3⟩ := bind_ok h2
      obtain ⟨⟨fs₃, bs₃, t₃⟩, hsf, hok⟩ := bind_ok h3
      have hok' : (Except.ok (AField.mk nm dt (is_nullable s) :: fs₃, b₀ :: bs₃, t₃) :
          Except ConvError (List AField × List ArrayBuilder × Nat)) = .ok (fs, bs, t') := hok
      injection hok' with h1
      injection h1 with hfs h4
      injection h4 with hbs ht
      subst hfs
      subst hbs
      intro tz htz
      have htz' : tz ∈ (dataTypeTzs dt ++ afieldsTzs fs₃) ++
          (builderTzs b₀ ++ builderTzsChildren bs₃) := htz
      rcases List.mem_append.mp htz' with hmem | hmem
      · rcases List.mem_append.mp hmem with hmem2 | hmem2
        · exact convert_to_datatype_tz clock c hconst s t dt t₁ hdt tz hmem2
        · exact struct_builder_fields_tz clock cap c hconst rest t₂ fs₃ bs₃ t₃ hsf tz
            (List.mem_append.mpr (Or.inl hmem2))
      · rcases List.mem_append.mp hmem with hmem2 | hmem2
        · exact create_builder_tz clock cap c hconst s t₁ b₀ t₂ hcb tz hmem2
        · exact struct_builder_fields_tz clock cap c hconst rest t₂ fs₃ bs₃ t₃ hsf tz
            (List.mem_append.mpr (Or.inr hmem2))
end

theorem lookupA_insertA_isSome {α : Type} (m : List ((String × Int) × α))
    (k k' : String × Int) (v : α) (h : (lookupA m k).isSome = true) :
    (lookupA (insertA m k' v) k).isSome = true := by
  show (if k' = k then some v else lookupA m k).isSome = true
  split
  · rfl
  · exact h

theorem countKey_append (l1 l2 : List (String × Int)) (k : String × Int) :
    countKey (l1 ++ l2) k = countKey l1 k + countKey l2 k := by
  simp [countKey, List.countP_append]

theorem countKey_snoc_ne (l : List (String × Int)) (e k : String × Int) (h : e ≠ k) :
    countKey (l ++ [e]) k = countKey l k := by
  simp [countKey, List.countP_append, List.countP_cons, h]

mutual
/-- `resolve` only ever adds keys to the `seen` map. -/
theorem resolve_seen_mono (env : RegEnv) :
    ∀ (fuel : Nat) (subject : String) (version : Int) (rs rs' : ResolveState),
      resolve env fuel subject version rs = .ok rs' →
      ∀ k, (lookupA rs.seen k).isSome = true → (lookupA rs'.seen k).isSome = true
  | 0, _, _, _, _, h => Except.noConfusion h
  | fuel + 1, subject, version, rs, rs', h => by
      simp only [resolve] at h
      split at h
      · exact Except.noConfusion h
      · injection h with h1
        subst h1
        exact fun k hk => hk
      · exact Except.noConfusion h
      · split at h
        · injection h with h1
          subst h1
          intro k hk
          exact lookupA_insertA_isSome _ _ _ _ (lookupA_insertA_isSome _ _ _ _ hk)
        · split at h
          · exact Except.noConfusion h
          · obtain ⟨rs₂, href, hok⟩ := bind_ok h
            injection hok with h1
            subst h1
            intro k hk
            refine lookupA_insertA_isSome _ _ _ _ ?_
            refine resolve_refs_seen_mono env fuel _ rs₂ href k ?_
            exact lookupA_insertA_isSome _ _ _ _ hk

theorem resolve_refs_seen_mono (env : RegEnv) :
    ∀ (fuel : Nat) (refs : List Reference) (rs' : ResolveState) {rs : ResolveState},
      resolve_refs env fuel refs rs = .ok rs' →
      ∀ k, (lookupA rs.seen k).isSome = true → (lookupA rs'.seen k).isSome = true
  | 0, _, _, _, h => Except.noConfusion h
  | fuel + 1, refs, rs', rs, h => by
      cases refs with
      | nil =>
          have h' : (Except.ok rs : Except RegistryError ResolveState) = .ok rs' := h
          injection h' with h1
          subst h1
          exact fun k hk => hk
      | cons dep rest =>
          have h' : (resolve env fuel (strip_value dep.subject) dep.version rs >>=
              fun rs₁ => resolve_refs env fuel rest rs₁) = .ok rs' := h
          obtain ⟨rs₁, hres, hrest⟩ := bind_ok h'
          intro k hk
          exact resolve_refs_seen_mono env fuel rest rs' hrest k
            (resolve_seen_mono env fuel _ _ rs rs₁ hres k hk)
end

mutual
/-- `resolve` never issues an HTTP GET for a key already in the `seen` map:
the GET log's count for such a key is unchanged. -/
theorem resolve_log_seen (env : RegEnv) :
    ∀ (fuel : Nat) (subject : String) (version : Int) (rs rs' : ResolveState),
      resolve env fuel subject version rs = .ok rs' →
      ∀ k, (lookupA rs.seen k).isSome = true → countKey rs'.log k = countKey rs.log k
  | 0, _, _, _, _, h => Except.noConfusion h
  | fuel + 1, subject, version, rs, rs', h => by
      simp only [resolve] at h
      split at h
      · exact Except.noConfusion h
      · injection h with h1
        subst h1
        exact fun k hk => rfl
      · exact Except.noConfusion h
      · rename_i hseen
        split at h
        · injection h with h1
          subst h1
          exact fun k hk => rfl
        · split at h
          · exact Except.noConfusion h
          · obtain ⟨rs₂, href, hok⟩ := bind_ok h
            injection hok with h1
            subst h1
            intro k hk
            have hne : (subject, version) ≠ k := by
              intro he
              rw [he] at hseen
              rw [hseen] at hk
              exact Bool.noConfusion hk
            have h2 : countKey rs₂.log k = countKey (rs.log ++ [(subject, version)]) k := by
              refine resolve_refs_log_seen env fuel _ rs₂ href k ?_
              exact lookupA_insertA_isSome _ _ _ _ hk
            show countKey rs₂.log k = countKey rs.log k
            rw [h2, countKey_snoc_ne _ _ _ hne]

theorem resolve_refs_log_seen (env : RegEnv) :
    ∀ (fuel : Nat) (refs : List Reference) (rs' : ResolveState) {rs : ResolveState},
      resolve_refs env fuel refs rs = .ok rs' →
      ∀ k, (lookupA rs.seen k).isSome = true → countKey rs'.log k = countKey rs.log k
  | 0, _, _, _, h => Except.noConfusion h
  | fuel + 1, refs, rs', rs, h => by
      cases refs with
      | nil =>
          have h' : (Except.ok rs : Except RegistryError ResolveState) = .ok rs' := h
          injection h' with h1
          subst h1
          exact fun k hk => rfl
      | cons dep rest =>
          have h' : (resolve env fuel (strip_value dep.subject) dep.version rs >>=
              fun rs₁ => resolve_refs env fuel rest rs₁) = .ok rs' := h
          obtain ⟨rs₁, hres, hrest⟩ := bind_ok h'
          intro k hk
          rw [resolve_refs_log_seen env fuel rest rs' hrest k
            (resolve_seen_mono env fuel _ _ rs rs₁ hres k hk)]
          exact resolve_log_seen env fuel _ _ rs rs₁ hres k hk
end

/-- A successful `resolve` of a key not yet `seen` issues at most one HTTP GET
for that key. -/
theorem resolve_fetch_once (env : RegEnv) (fuel : Nat) (subject : String)
    (version : Int) (rs rs' : ResolveState)
    (h : resolve env fuel subject version rs = .ok rs')
    (hseen : lookupA rs.seen (subject, version) = none) :
    countKey rs'.log (subject, version) ≤ countKey rs.log (subject, version) + 1 := by
  cases fuel with
  | zero => exact Except.noConfusion h
  | succ fuel =>
      simp only [resolve] at h
      split at h
      · exact Except.noConfusion h
      · rename_i heq
        rw [hseen] at heq
        exact Option.noConfusion heq
      · rename_i heq
        rw [hseen] at heq
        exact Option.noConfusion heq
      · split at h
        · injection h with h1
          subst h1
          show countKey rs.log (subject, version) ≤ countKey rs.log (subject, version) + 1
          exact Nat.le_succ _
        · split at h
          · exact Except.noConfusion h
          · obtain ⟨rs₂, href, hok⟩ := bind_ok h
            injection hok with h1
            subst h1
            have h2 : countKey rs₂.log (subject, version) =
                countKey (rs.log ++ [(subject, version)]) (subject, version) := by
              refine resolve_refs_log_seen env fuel _ rs₂ href (subject, version) ?_
              show (if (subject, version) = (subject, version) then some 0
                else lookupA rs.seen (subject, version)).isSome = true
              rw [if_pos rfl]
              rfl
            show countKey rs₂.log (subject, version) ≤
              countKey rs.log (subject, version) + 1
            rw [h2, countKey_append]
            have h3 : countKey [(subject, version)] (subject, version) = 1 := by
              simp [countKey, List.countP_cons]
            omega

/-- Every binding added to the cache by the fill loop of `get` carries a
schema taken verbatim from the parser's output. -/
theorem fillCache_mem :
    ∀ (parsed : List AvroSchema) (keys : List ((String × Int) × String))
      (cache : List ((String × Int) × (Nat × AvroSchema))) (nextRc : Nat)
      (cache' : List ((String × Int) × (Nat × AvroSchema))) (nextRc' : Nat),
      fillCache parsed keys cache nextRc = .ok (cache', nextRc') →
      ∀ (k : String × Int) (rc : Nat × AvroSchema), lookupA cache' k = some rc →
        rc.2 ∈ parsed ∨ lookupA cache k = some rc
  | [], keys, cache, nextRc, cache', nextRc', h => by
      have h' : (Except.ok (cache, nextRc) :
          Except RegistryError (List ((String × Int) × (Nat × AvroSchema)) × Nat)) =
          .ok (cache', nextRc') := h
      injection h' with h1
      injection h1 with hc hn
      subst hc
      exact fun k rc hl => Or.inr hl
  | p :: ps, [], cache, nextRc, cache', nextRc', h => Except.noConfusion h
  | p :: ps, (k₀, raw) :: ks, cache, nextRc, cache', nextRc', h => by
      have h' : fillCache ps ks (insertA cache k₀ (nextRc, p)) (nextRc + 1) =
          .ok (cache', nextRc') := h
      intro k rc hl
      rcases fillCache_mem ps ks _ _ cache' nextRc' h' k rc hl with hmem | hmem
      · exact Or.inl (List.mem_cons_of_mem _ hmem)
      · have hmem' : (if k₀ = k then some (nextRc, p) else lookupA cache k) =
            some rc := hmem
        split at hmem'
        · injection hmem' with h2
          subst h2
          exact Or.inl (by simp)
        · exact Or.inr hmem'

/-- `is_nullable` holds exactly on unions containing the `Null` variant in
any position. -/
theorem is_nullable_iff (s : AvroSchema) :
    is_nullable s = true ↔
      ∃ variants, s = .union variants ∧ AvroSchema.null ∈ variants := by
  cases s <;> simp [is_nullable]
  case union variants =>
    constructor
    · rintro ⟨x, hx, hmatch⟩
      cases x <;> simp at hmatch
      exact hx
    · intro hmem
      exact ⟨.null, hmem, rfl⟩

/- ----------------------------------------------------------------- -/
/- Claim theorems                                                    -/
/- ----------------------------------------------------------------- -/

/-- C1 (counterexample): in a registry environment with a transitive
reference chain (`User:2` → `Address:1`) whose batch parser emits a `ref`
node for the cross-reference — as `Schema::parse_list` does — the schema
returned by `AvroRegistry.get("User", 2)` still contains a `Ref` node: `get`
never runs `expand_schema`, so the result is not a fully expanded,
self-contained schema. -/
theorem C1_counterexample :
    (match AvroRegistry.get envRefs 9 "User" 2 regEmpty with
     | .ok ((_, sch), _, _) => containsRef sch
     | .error _ => false) = true := by
  set_option maxRecDepth 100000 in decide

/-- C1 (amended): on a fresh registry, a successful `AvroRegistry.get`
returns one of the batch parser's output schemas verbatim — no expansion of
any kind is applied between `Schema::parse_list` and the returned handle, so
named references survive into the result exactly as the parser produced
them. -/
theorem C1_get_returns_parsed (env : RegEnv) (fuel : Nat) (subject : String)
    (version : Int) (rc : Nat × AvroSchema) (reg' : AvroRegistry)
    (log : List (String × Int))
    (h : AvroRegistry.get env fuel subject version regEmpty = .ok (rc, reg', log)) :
    ∃ (raws : List String) (parsed : List AvroSchema),
      env.parse_list raws = .ok parsed ∧ rc.2 ∈ parsed := by
  have h' : (resolve env fuel subject version
      { cacheRaw := [], schemas := [], seen := [], log := [] } >>= fun rs =>
      match env.parse_list (rs.schemas.map (·.2)) with
      | .error e => .error (.deserializationFailed (toString e))
      | .ok avro_schemas =>
          fillCache avro_schemas rs.schemas [] 0 >>= fun p =>
          match lookupA p.1 (subject, version) with
          | some rc0 => .ok (rc0, (⟨p.1, rs.cacheRaw, p.2⟩ : AvroRegistry), rs.log)
          | none => .error .panicIndex) = .ok (rc, reg', log) := h
  obtain ⟨rs, hres, hcont⟩ := bind_ok h'
  split at hcont
  · exact Except.noConfusion hcont
  · rename_i parsed hparse
    obtain ⟨⟨cache', nextRc'⟩, hfill, hcont2⟩ := bind_ok hcont
    split at hcont2
    · rename_i rc0 hlook
      injection hcont2 with h1
      injection h1 with hrc h2
      subst hrc
      refine ⟨rs.schemas.map (·.2), parsed, hparse, ?_⟩
      rcases fillCache_mem parsed rs.schemas [] 0 cache' nextRc' hfill
          (subject, version) rc0 hlook with hmem | hmem
      · exact hmem
      · exact absurd hmem (by simp [lookupA])
    · exact Except.noConfusion hcont2

/-- C1 (witness): the amended statement is inhabited: the concrete run on
`envW` succeeds and its result is an element of the parser's output. -/
theorem C1_witness :
    ∃ (raws : List String) (parsed : List AvroSchema),
      envW.parse_list raws = .ok parsed ∧
      (AvroSchema.record "A" [("id", .long)]) ∈ parsed := by
  have h := C1_get_returns_parsed envW 5 "A" 1
    (0, .record "A" [("id", .long)])
    ⟨[(("A", 1), 0, .record "A" [("id", .long)])], [(("A", 1), "a-raw")], 1⟩
    [("A", 1)] (by set_option maxRecDepth 1000000 in rfl)
  exact h

/-- C2 (counterexample): the claimed invariant fails on code the appends
accept. `cexValue` conforms to `cexSchema` in the data model of the spec
(`conformsSpec`), and one successful top-level append leaves (a) the leaf
builder under the nullable nested record at length 0 while its parent struct
has length 1, and (b) the int leaf under the list values builder at length
2 — so neither "every leaf builder has length n" nor "every struct child has
its parent's length" holds after n = 1 successful appends. -/
theorem C2_counterexample :
    conformsSpec cexSchema cexValue = true ∧
    create_builder (fun _ => "") 32 cexSchema 0 = .ok (cexBuilder0, 0) ∧
    appendMany cexSchema cexBuilder0 [cexValue] = .ok cexBuilder1 ∧
    builderLen cexBuilder1 = 1 ∧
    allLeavesLen 1 cexBuilder1 = false ∧
    structChildrenEq cexBuilder1 = false :=
  ⟨rfl, rfl, rfl, rfl, rfl, rfl⟩

/-- C2 (amended): for value sequences that conform strictly (`conforms`: no
bare `Null` at record positions, union values wrapped), n successful appends
on a freshly created builder leave every builder reachable outside list/map
values builders at length n (`rowAligned`), and every struct child everywhere
at its parent's length (`structChildrenEq`). Leaf builders nested inside
list/map values builders instead hold one entry per element appended into
them, and a `Null` at a nested record position leaves that struct's children
one short — the two effects shown by the counterexample. -/
theorem C2_row_alignment (clock : Nat → String) (cap : Nat) (s : AvroSchema)
    (t t' : Nat) (b : ArrayBuilder) (vs : List AvroValue)
    (hcb : create_builder clock cap s t = .ok (b, t'))
    (hconf : ∀ v ∈ vs, conforms s v = true) :
    ∃ b', appendMany s b vs = .ok b' ∧ builderLen b' = vs.length ∧
      rowAligned vs.length b' = true ∧ structChildrenEq b' = true := by
  obtain ⟨hm, hb, hlen⟩ := create_builder_ok clock cap s t b t' hcb
  obtain ⟨b', he, hl, hm', hb'⟩ := appendMany_ok s vs b hm hb hconf
  have hlb : builderLen b' = vs.length := by omega
  refine ⟨b', he, hlb, ?_, structChildrenEq_of_balanced b' hb'⟩
  have hra := rowAligned_of_balanced b' hb'
  rw [hlb] at hra
  exact hra

/-- C2 (witness): a concrete two-value strictly conforming run on a
record-of-int schema reaches the amended invariant. -/
theorem C2_witness :
    ∃ b', appendMany (.record "r" [("x", .int)])
        (.structB [.mk "x" .int32 false] [] [.int32B []])
        [.record [("x", .int 3)], .record [("x", .int 4)]] = .ok b' ∧
      builderLen b' = 2 ∧ rowAligned 2 b' = true ∧ structChildrenEq b' = true :=
  C2_row_alignment (fun _ => "") 32 (.record "r" [("x", .int)]) 0 0
    (.structB [.mk "x" .int32 false] [] [.int32B []])
    [.record [("x", .int 3)], .record [("x", .int 4)]]
    rfl (by decide)

/-- C3 (counterexample): a bare `Null` value at a `Union` schema does not
append a null — it hits the `unexpected_type!("Union", ...)` panic, because
the `Union` arm of `append_record` only accepts `Value::Union` values. -/
theorem C3_counterexample :
    append_record (.int32B []) (.union [.null, .int]) .null =
      .error (.unexpectedType "Union") := rfl

/-- C3 (amended): a bare `Null` appends a null and succeeds at every schema
variant the appender supports except `Union` (where it panics, see the
counterexample); `null_accepted` enumerates exactly those variants. -/
theorem C3_null_appends (s : AvroSchema) (b : ArrayBuilder)
    (hm : bmatches b s = true) (hb : balanced b = true)
    (hs : null_accepted s = true) :
    ∃ b', append_record b s .null = .ok b' ∧ builderLen b' = builderLen b + 1 := by
  cases s
  case record rnm sfields =>
    cases b <;> try exact absurd hm (by exact fun h => Bool.noConfusion h)
    case structB fmeta validity children =>
      exact ⟨_, rfl, by simp [builderLen]⟩
  case union variants => exact absurd hs (by exact fun h => Bool.noConfusion h)
  case null => exact absurd hs (by exact fun h => Bool.noConfusion h)
  case bigDecimal => exact absurd hs (by exact fun h => Bool.noConfusion h)
  case ref rname => exact absurd hs (by exact fun h => Bool.noConfusion h)
  case duration => exact absurd hs (by exact fun h => Bool.noConfusion h)
  all_goals
    obtain ⟨b', he, hl, hmx, hbx⟩ := append_record_ok _ b .null hm hb rfl
  all_goals exact ⟨b', he, hl⟩

/-- C3 (witness): the amended statement at a map builder. -/
theorem C3_witness :
    ∃ b', append_record (.mapB [] [] (.stringB [])) (.map .string) .null = .ok b' ∧
      builderLen b' = builderLen (.mapB [] [] (.stringB [])) + 1 :=
  C3_null_appends (.map .string) (.mapB [] [] (.stringB [])) rfl rfl rfl

/-- C4 (counterexample): `append_record` accepts a union that is not of shape
`[Null, T]`: on the two-variant union `[String, Int]` (no `Null` at all,
`is_optional` is false) it silently selects variant index 1 and appends the
inner value instead of rejecting the union as unsupported. -/
theorem C4_counterexample :
    append_record (.int32B []) (.union [.string, .int]) (.union 1 (.int 5)) =
      .ok (.int32B [some 5]) ∧
    is_optional [.string, .int] = false :=
  ⟨rfl, rfl⟩

/-- C4 (amended): the `Union` arm of `append_record` performs no shape check
at all: for any union with at least two variants it unconditionally takes
variant index 1 as the active schema and recurses with the wrapped inner
value (ignoring the value's discriminator), and for any union with fewer
than two variants the `variants()[1]` access is an index panic before the
value is even looked at. The `[Null, T]` check (`is_optional`) exists only
in `convert_to_datatype` and `create_builder`. -/
theorem C4_union_no_check (b : ArrayBuilder) (v0 t : AvroSchema)
    (rest : List AvroSchema) (i : Nat) (inner : AvroValue) (v : AvroValue) :
    append_record b (.union (v0 :: t :: rest)) (.union i inner) =
      append_record b t inner ∧
    append_record b (.union []) v = .error .indexOutOfBounds ∧
    append_record b (.union [v0]) v = .error .indexOutOfBounds := by
  refine ⟨rfl, ?_, ?_⟩ <;> (cases v <;> rfl)

/-- C5: for every record schema on which `convert_schema` succeeds, the i-th
translated field is nullable exactly when the i-th declared field schema is a
union containing the `Null` variant in any position. -/
theorem C5_field_nullability (clock : Nat → String) (rnm : String)
    (sfields : List (String × AvroSchema)) (t : Nat) (fs : List AField) (t' : Nat)
    (h : convert_schema clock (.record rnm sfields) t = .ok (fs, t')) :
    fs.length = sfields.length ∧
    ∀ (k : Nat) (f : AField), fs[k]? = some f →
      ∃ fnm fsk, sfields[k]? = some (fnm, fsk) ∧
        (f.nullable = true ↔
          ∃ variants, fsk = .union variants ∧ AvroSchema.null ∈ variants) := by
  have h' : convert_record_fields clock sfields t = .ok (fs, t') := h
  obtain ⟨hlen, hget⟩ := convert_record_fields_spec clock sfields t fs t' h'
  refine ⟨hlen, ?_⟩
  intro k f hf
  obtain ⟨fnm, fsk, hsk, hname, hnull⟩ := hget k f hf
  refine ⟨fnm, fsk, hsk, ?_⟩
  rw [hnull]
  exact is_nullable_iff fsk

/-- C5 (witness): the theorem applied to a concrete nullable-string record. -/
theorem C5_witness :
    ([AField.mk "a" .utf8 true, AField.mk "b" .int32 false] : List AField).length =
    ([("a", AvroSchema.union [.null, .string]), ("b", AvroSchema.int)] :
      List (String × AvroSchema)).length :=
  (C5_field_nullability (fun _ => "") "r"
    [("a", .union [.null, .string]), ("b", .int)] 0
    [.mk "a" .utf8 true, .mk "b" .int32 false] 0 rfl).1

/-- C6 (counterexample): the tz string is not captured once per translation
call: each `tz_offset!()` expansion reads the host clock anew, so a clock
that changes between the two local-timestamp fields of a single
`convert_schema` call yields two different tz strings inside one translated
schema. -/
theorem C6_counterexample :
    convert_schema (fun n => if n == 0 then "+01:00" else "+02:00")
      (.record "r" [("a", .localTimestampMillis), ("b", .localTimestampMillis)]) 0 =
      .ok ([.mk "a" (.timestamp .millisecond (some "+01:00")) false,
            .mk "b" (.timestamp .millisecond (some "+02:00")) false], 2) ∧
    ("+01:00" : String) ≠ "+02:00" :=
  ⟨rfl, by decide⟩

/-- C6 (amended): the uniformity the claim describes holds exactly when the
host offset does not change across the calls: under a constant clock, every
tz string in a translated schema and every tz string carried by the builders
(including struct field metadata) equal that constant, hence schema and
builder tz strings agree. -/
theorem C6_tz_uniform (clock : Nat → String) (c : String) (hconst : ∀ n, clock n = c)
    (cap : Nat) (s : AvroSchema) (t₁ t₁' t₂ t₂' : Nat) (fs : List AField)
    (b : ArrayBuilder)
    (h₁ : convert_schema clock s t₁ = .ok (fs, t₁'))
    (h₂ : create_builder clock cap s t₂ = .ok (b, t₂')) :
    (∀ tz ∈ afieldsTzs fs, tz = c) ∧ (∀ tz ∈ builderTzs b, tz = c) := by
  constructor
  · cases s <;> try exact Except.noConfusion h₁
    case record nm fields =>
      exact convert_record_fields_tz clock c hconst fields t₁ fs t₁' h₁
  · exact create_builder_tz clock cap c hconst s t₂ b t₂' h₂

/-- C6 (witness): the amended statement at a one-field local-timestamp
record under the constant clock `"+02:00"`. -/
theorem C6_witness : ("+02:00" : String) = "+02:00" :=
  (C6_tz_uniform (fun _ => "+02:00") "+02:00" (fun _ => rfl) 32
    (.record "r" [("a", .localTimestampMillis)]) 0 1 0 2
    [.mk "a" (.timestamp .millisecond (some "+02:00")) false]
    (.structB [.mk "a" (.timestamp .millisecond (some "+02:00")) false] []
      [.timestampMsB (some "+02:00") []])
    rfl rfl).1 "+02:00" (List.Mem.head _)

/-- C7: appending a `Decimal` value converts the big-integer payload via
`from_decimal128`: the appended 128-bit cell equals the payload exactly when
it fits into `i128` (so append-then-finish is the identity on every
`i128`-representable integer), and is the silent `0` fallback otherwise —
the append still succeeds, no error is reported. -/
theorem C7_decimal_append (p : Nat) (sc : Int) (vals : List (Option Int))
    (dp ds : Nat) (n : Int) :
    append_record (.decimal128B p sc vals) (.decimal dp ds) (.decimal n) =
      .ok (.decimal128B p sc (vals ++ [some (from_decimal128 n)])) ∧
    (fits_i128 n = true → from_decimal128 n = n) ∧
    (fits_i128 n = false → from_decimal128 n = 0) := by
  refine ⟨rfl, ?_, ?_⟩
  · intro h
    simp [from_decimal128, h]
  · intro h
    simp [from_decimal128, h]

/-- C7 (witness): round-trip identity at 1024 and the lossy `0` fallback at
`2 ^ 127`. -/
theorem C7_witness :
    append_record (.decimal128B 10 4 []) (.decimal 10 4) (.decimal 1024) =
      .ok (.decimal128B 10 4 [some 1024]) ∧
    from_decimal128 (2 ^ 127) = 0 :=
  ⟨((C7_decimal_append 10 4 [] 10 4 1024).1).trans
    (by set_option maxRecDepth 100000 in rfl),
   (C7_decimal_append 10 4 [] 10 4 (2 ^ 127)).2.2
    (by set_option maxRecDepth 100000 in rfl)⟩

/-- C8 (counterexample): a non-record top-level schema does not produce a
returned error value: `convert_schema` hits
`panic!("unsupported avro schema root type: expected a record")`, modelled by
the distinguished `panicNotRecord` outcome, which is distinct from every
returned-`Err` outcome of the translation (`unsupported`,
`unsupportedUnion`); no `RootMustBeRecord` error value exists in the code. -/
theorem C8_counterexample :
    convert_schema (fun _ => "") .int 0 = .error .panicNotRecord ∧
    ConvError.panicNotRecord ≠ ConvError.unsupported ∧
    ConvError.panicNotRecord ≠ ConvError.unsupportedUnion :=
  ⟨rfl, by decide, by decide⟩

/-- C8 (amended): for every non-record top-level schema, `convert_schema`
panics (the `panicNotRecord` outcome) rather than returning an error value
to the caller. -/
theorem C8_root_panic (clock : Nat → String) (s : AvroSchema) (t : Nat)
    (h : ∀ nm fields, s ≠ .record nm fields) :
    convert_schema clock s t = .error .panicNotRecord := by
  cases s <;> first
    | rfl
    | exact absurd rfl (h _ _)

/-- C8 (witness): the amended statement at the `Int` schema. -/
theorem C8_witness : convert_schema (fun _ => "") .long 0 = .error .panicNotRecord :=
  C8_root_panic (fun _ => "") .long 0 (by intro nm fields h; exact AvroSchema.noConfusion h)

/-- C9: two consecutive successful `AvroRegistry.get` calls for the same key
on the same registry return the same `Rc` handle (same allocation id, hence
pointer-equal) and issue at most one HTTP GET for that key across both
calls. -/
theorem C9_get_twice (env : RegEnv) (fuel₁ fuel₂ : Nat) (subject : String)
    (version : Int) (reg : AvroRegistry) (rc₁ rc₂ : Nat × AvroSchema)
    (reg₁ reg₂ : AvroRegistry) (log₁ log₂ : List (String × Int))
    (h₁ : AvroRegistry.get env fuel₁ subject version reg = .ok (rc₁, reg₁, log₁))
    (h₂ : AvroRegistry.get env fuel₂ subject version reg₁ = .ok (rc₂, reg₂, log₂)) :
    rc₁ = rc₂ ∧ countKey (log₁ ++ log₂) (subject, version) ≤ 1 := by
  simp only [AvroRegistry.get] at h₁
  split at h₁
  · rename_i rc0 hlook
    injection h₁ with h1
    injection h1 with hrc h2
    injection h2 with hreg hlog
    subst hrc
    subst hreg
    subst hlog
    simp only [AvroRegistry.get, hlook] at h₂
    injection h₂ with h1
    injection h1 with hrc h2
    injection h2 with hreg hlog
    subst hrc
    subst hlog
    exact ⟨rfl, by simp [countKey]⟩
  · rename_i hlookNone
    obtain ⟨rs, hres, hcont⟩ := bind_ok h₁
    split at hcont
    · exact Except.noConfusion hcont
    · rename_i parsed hparse
      obtain ⟨⟨cache', nextRc'⟩, hfill, hcont2⟩ := bind_ok hcont
      split at hcont2
      · rename_i rc0 hlook2
        injection hcont2 with h1
        injection h1 with hrc h2
        injection h2 with hreg hlog
        subst hrc
        subst hreg
        subst hlog
        have hcount : countKey rs.log (subject, version) ≤ 1 := by
          have := resolve_fetch_once env fuel₁ subject version
            { cacheRaw := reg.cacheRaw, schemas := [], seen := [], log := [] } rs hres rfl
          simpa [countKey] using this
        simp only [AvroRegistry.get] at h₂
        rw [show lookupA (AvroRegistry.mk cache' rs.cacheRaw nextRc').cache
            (subject, version) = some rc0 from hlook2] at h₂
        injection h₂ with h1
        injection h1 with hrc h2
        injection h2 with hreg hlog
        subst hrc
        subst hlog
        refine ⟨rfl, ?_⟩
        rw [countKey_append]
        have hnil : countKey [] (subject, version) = 0 := rfl
        omega
      · exact Except.noConfusion hcont2

/-- C9 (witness): the theorem applied to a concrete one-subject run: the
first `get` fetches once, the second is a cache hit on the same handle. -/
theorem C9_witness :
    ((0 : Nat), AvroSchema.record "A" [("id", .long)]) =
      ((0 : Nat), AvroSchema.record "A" [("id", .long)]) ∧
    countKey ([("A", (1 : Int))] ++ []) ("A", 1) ≤ 1 :=
  C9_get_twice envW 5 5 "A" 1 regEmpty
    (0, .record "A" [("id", .long)]) (0, .record "A" [("id", .long)])
    ⟨[(("A", 1), 0, .record "A" [("id", .long)])], [(("A", 1), "a-raw")], 1⟩
    ⟨[(("A", 1), 0, .record "A" [("id", .long)])], [(("A", 1), "a-raw")], 1⟩
    [("A", 1)] [] (by set_option maxRecDepth 1000000 in rfl)
    (by set_option maxRecDepth 1000000 in rfl)

/-- C10: `append_record` pairs record value fields with schema fields purely
by position, ignoring the names in the value. (a) With more value fields
than schema fields, the loop indexes past `inner.fields` — the
`indexOutOfBounds` panic is reached (shown on a concrete input whose prefix
appends succeed). (b) With fewer value fields than schema fields (each
prefix field conforming), the call succeeds, closing the struct slot while
leaving every untouched trailing child builder at its old length — one
short of the struct's new length. -/
theorem C10_positional :
    (append_record (.structB [] [] [.int32B []]) (.record "r" [("a", .int)])
      (.record [("a", .int 1), ("b", .int 2)]) = .error .indexOutOfBounds) ∧
    (∀ (rnm : String) (sfields : List (String × AvroSchema)) (fmeta : List AField)
        (validity : List Bool) (children : List ArrayBuilder)
        (vfields : List (String × AvroValue)),
      bmatches (.structB fmeta validity children) (.record rnm sfields) = true →
      balanced (.structB fmeta validity children) = true →
      vfields.length < sfields.length →
      conformsPrefix sfields vfields = true →
      ∃ children', append_record (.structB fmeta validity children)
          (.record rnm sfields) (.record vfields) =
          .ok (.structB fmeta (validity ++ [true]) children') ∧
        children'.length = children.length ∧
        ∀ j, vfields.length ≤ j → j < children.length →
          children'[j]? = children[j]? ∧
          ∃ cb, children[j]? = some cb ∧ builderLen cb = validity.length) := by
  refine ⟨rfl, ?_⟩
  intro rnm sfields fmeta validity children vfields hm hb hlt hconf
  have hmc : bmatchesChildren children sfields = true := hm
  have hbc : balancedChildren validity.length children = true := hb
  have hclen : children.length = sfields.length := bmatchesChildren_length hmc
  obtain ⟨children', he, hlen', huntouched, htouched⟩ :=
    append_record_fields_spec sfields vfields 0 children
      (fun p hp b₀ s₀ hm₀ hb₀ hc₀ => append_record_ok s₀ b₀ p.2 hm₀ hb₀ hc₀)
      (by
        intro k hk
        have hks : k < sfields.length := by omega
        have hkc : k < children.length := by omega
        have hsg : sfields[k]? = some sfields[k] := List.getElem?_eq_getElem hks
        have hcg : children[k]? = some children[k] := List.getElem?_eq_getElem hkc
        have hvg : vfields[k]? = some vfields[k] := List.getElem?_eq_getElem hk
        refine ⟨(sfields[k]).1, (sfields[k]).2, children[k],
          (vfields[k]).1, (vfields[k]).2,
          by simpa using hsg, by simpa using hcg, by simpa using hvg, ?_, ?_, ?_⟩
        · exact bmatchesChildren_get hmc k children[k]
            (sfields[k]).1 (sfields[k]).2 hcg (by simpa using hsg)
        · exact (balancedChildren_mem hbc children[k] (List.getElem_mem hkc)).2
        · exact conformsPrefix_get hconf k (vfields[k]).1 (vfields[k]).2
            (sfields[k]).1 (sfields[k]).2 (by simpa using hvg) (by simpa using hsg))
  refine ⟨children', ?_, hlen', ?_⟩
  · show (append_record_fields children sfields vfields 0 >>= fun children'' =>
      Except.ok (ArrayBuilder.structB fmeta (validity ++ [true]) children'')) = _
    rw [he]
    rfl
  · intro j hj hjc
    have huj : children'[j]? = children[j]? :=
      huntouched j (Or.inr (by omega))
    refine ⟨huj, children[j], List.getElem?_eq_getElem hjc, ?_⟩
    exact (balancedChildren_mem hbc children[j] (List.getElem_mem hjc)).1

/-- C10 (witness): the shorter-value half at a concrete two-field schema
with a one-field value. -/
theorem C10_witness :
    ∃ children', append_record (.structB [] [] [.int32B [], .int32B []])
        (.record "r" [("a", .int), ("b", .int)]) (.record [("a", .int 7)]) =
        .ok (.structB [] [true] children') ∧
      children'.length = 2 ∧
      ∀ j, 1 ≤ j → j < 2 →
        children'[j]? = ([ArrayBuilder.int32B [], ArrayBuilder.int32B []])[j]? ∧
        ∃ cb, ([ArrayBuilder.int32B [], ArrayBuilder.int32B []])[j]? = some cb ∧
          builderLen cb = 0 := by
  have h := C10_positional.2 "r" [("a", .int), ("b", .int)] [] []
    [.int32B [], .int32B []] [("a", .int 7)] rfl rfl (by decide) rfl
  obtain ⟨children', he, hlen, huntouched⟩ := h
  refine ⟨children', he, hlen, ?_⟩
  intro j h1 h2
  obtain ⟨ha, hb⟩ := huntouched j h1 (by simpa using h2)
  exact ⟨ha, hb⟩
